import Mathlib

/-!
# Verification of the log-to-knowledge-base correlation engine

Shallow embedding of the core processing modules of the
Enterprise-Log-Intelligence-Platform repository:

* `processing/knowledge_base.py` — `generalize_message`, `load_knowledge_base`
* `processing/log_parser.py` — `parse_log_line`, `process_all_logs_for_case`
* `processing/report_generator.py` — `calculate_impact_metrics`,
  `generate_predictive_alerts`, `identify_novel_anomalies`
* `processing/orchestrator.py` — the primary-correlation dedup fragment of
  `run_full_analysis_from_zip_bytes`

Pandas DataFrames are modelled as Lean lists of records that preserve row
order; `drop_duplicates(subset=..., keep='first')` is modelled by a
first-occurrence dedup; `sort_values` is modelled by an order-preserving
insertion sort on the sort key.  Python regular-expression substitutions are
modelled by explicit left-to-right scanners that mirror the leftmost,
non-overlapping, greedy-with-backtracking semantics of `re.sub` for each
concrete pattern of the source; the scanners are written as structurally
recursive state machines so that they evaluate on concrete inputs.
Character classes (`\d`, `\w`, `\s`) and `str.lower`/`str.strip` are
modelled with their ASCII semantics.  Timestamps are modelled as integers
ordered like the instants they denote.
-/

/-- Python `\d` (ASCII): decimal digit. -/
def pyDigit (c : Char) : Bool := '0' ≤ c && c ≤ '9'

/-- ASCII lowercase letter. -/
def asciiLowerAlpha (c : Char) : Bool := 'a' ≤ c && c ≤ 'z'

/-- ASCII uppercase letter. -/
def asciiUpperAlpha (c : Char) : Bool := 'A' ≤ c && c ≤ 'Z'

/-- Python `\w` (ASCII): letter, digit or underscore. -/
def pyWord (c : Char) : Bool := asciiLowerAlpha c || asciiUpperAlpha c || pyDigit c || c = '_'

/-- Python `\s` (ASCII): space, tab, newline, carriage return, vertical tab, form feed. -/
def pySpace (c : Char) : Bool :=
  c = ' ' || c = '\t' || c = '\n' || c = '\x0d' || c = '\x0b' || c = '\x0c'

/-- Lowercase hexadecimal digit, the class `[0-9a-f]` of the hex pattern. -/
def hexDigit (c : Char) : Bool := pyDigit c || ('a' ≤ c && c ≤ 'f')

/-- `str.lower` on one character (ASCII). -/
def asciiLower (c : Char) : Char :=
  if 'A' ≤ c ∧ c ≤ 'Z' then Char.ofNat (c.toNat + 32) else c

/-- Replacement text `'ip address'`. -/
def ipToken : List Char := "ip address".data

/-- Replacement text `'hex value'`. -/
def hexToken : List Char := "hex value".data

/-- Replacement text `'file path'`. -/
def pathToken : List Char := "file path".data

/-- Replacement text `'number'`. -/
def numberToken : List Char := "number".data

/-- One `\d{1,3}` component followed by a literal dot.  Greedy matching of
`\d{1,3}` backtracks only into shorter digit runs, whose successor is again a
digit, so the component matches exactly when the maximal leading digit run has
length 1–3 and is followed by `'.'`. -/
def ipQuadDot (l : List Char) : Option (List Char) :=
  let run := l.takeWhile pyDigit
  let rest := l.dropWhile pyDigit
  if 1 ≤ run.length ∧ run.length ≤ 3 then
    match rest with
    | '.' :: t => some t
    | _ => none
  else none

/-- The final `\d{1,3}\b` component: maximal run of length 1–3 whose successor
is absent or a non-word character. -/
def ipQuadEnd (l : List Char) : Option (List Char) :=
  let run := l.takeWhile pyDigit
  let rest := l.dropWhile pyDigit
  if 1 ≤ run.length ∧ run.length ≤ 3 then
    match rest with
    | [] => some []
    | d :: t => if pyWord d then none else some (d :: t)
  else none

/-- Attempt of `\b\d{1,3}\.\d{1,3}\.\d{1,3}\.\d{1,3}\b` at the head of `l`
(the leading word boundary is checked by the caller).  Returns the rest of the
input after the match. -/
def ipMatch (l : List Char) : Option (List Char) := do
  let t1 ← ipQuadDot l
  let t2 ← ipQuadDot t1
  let t3 ← ipQuadDot t2
  ipQuadEnd t3

/-- Number of characters of the tail after the first matched character that
still belong to an IPv4 match starting at `l`, minus one (a match always
covers at least seven characters, so this is well defined). -/
def ipSkip (l : List Char) : Option Nat :=
  match ipMatch l with
  | some t => some (l.length - t.length - 2)
  | none => none

/-- `re.sub` of the IPv4 pattern: left-to-right scan over the original text.
In scanning mode (`st = none`) `pw` records whether the character just before
the scan position is a word character (initially false: start of string); a
match is attempted at a position exactly when it holds a digit and the
preceding character is not a word character (the `\b` assertion).  On failure
the scan advances one character; on success the replacement token is emitted
and `st = some n` consumes the `n + 1` remaining characters of the match. -/
def subIpS (st : Option Nat) (pw : Bool) (l : List Char) : List Char :=
  match st, l with
  | _, [] => []
  | some 0, _ :: rest => subIpS none true rest
  | some (n + 1), _ :: rest => subIpS (some n) true rest
  | none, c :: rest =>
    if pyDigit c then
      if pw then c :: subIpS none true rest
      else
        match ipSkip (c :: rest) with
        | some n => ipToken ++ subIpS (some n) true rest
        | none => c :: subIpS none true rest
    else c :: subIpS none (pyWord c) rest

/-- `re.sub(r'\b\d{1,3}\.\d{1,3}\.\d{1,3}\.\d{1,3}\b', 'ip address', ...)`. -/
def subIp (l : List Char) : List Char := subIpS none false l

/-- `re.sub(r'0x[0-9a-f]+', 'hex value', ...)`: a match starts at a literal
`0x` followed by at least one lowercase hex digit and greedily consumes the
maximal hex-digit run (state `true`); the scan resumes at the first non-hex
character, which can never restart a match since `'0'` is itself a hex
digit. -/
def subHexS (inRun : Bool) (l : List Char) : List Char :=
  match inRun, l with
  | _, [] => []
  | true, c :: rest => if hexDigit c then subHexS true rest else c :: subHexS false rest
  | false, '0' :: 'x' :: c :: rest =>
    if hexDigit c then hexToken ++ subHexS true rest
    else '0' :: subHexS false ('x' :: c :: rest)
  | false, c :: rest => c :: subHexS false rest

/-- `re.sub(r'0x[0-9a-f]+', 'hex value', ...)`. -/
def subHex (l : List Char) : List Char := subHexS false l

/-- `re.sub(r'(?:/[^/ ]*)+/?', 'file path', ...)`: starting at a `'/'`, the
iterated group consumes through any character other than a space, resuming at
each further `'/'`, so the whole match runs from the `'/'` to the next space
(or the end) and the trailing `/?` matches empty.  State `true` consumes the
matched region. -/
def subPathS (inRun : Bool) (l : List Char) : List Char :=
  match inRun, l with
  | _, [] => []
  | true, c :: rest => if c = ' ' then ' ' :: subPathS false rest else subPathS true rest
  | false, c :: rest =>
    if c = '/' then pathToken ++ subPathS true rest else c :: subPathS false rest

/-- `re.sub(r'(?:/[^/ ]*)+/?', 'file path', ...)`. -/
def subPath (l : List Char) : List Char := subPathS false l

/-- `re.sub(r'\b\d+\b', 'number', ...)`: a match is attempted where the
preceding character is not a word character (`pw = false`) and the position
holds a digit; the accumulator state collects the maximal digit run.  If the
character after the run is a word character the attempt fails (the trailing
`\b` fails, and backtracking into the run lands between two digits), the run
is emitted verbatim and scanning resumes; otherwise the run is replaced by
the token. -/
def subNumS (st : Option (List Char)) (pw : Bool) (l : List Char) : List Char :=
  match st, l with
  | none, [] => []
  | none, c :: rest =>
    if pyDigit c then
      if pw then c :: subNumS none true rest
      else subNumS (some [c]) true rest
    else c :: subNumS none (pyWord c) rest
  | some _, [] => numberToken
  | some acc, d :: t =>
    if pyDigit d then subNumS (some (acc ++ [d])) true t
    else if pyWord d then acc ++ d :: subNumS none true t
    else numberToken ++ d :: subNumS none false t

/-- `re.sub(r'\b\d+\b', 'number', ...)`. -/
def subNum (l : List Char) : List Char := subNumS none false l

/-- `re.sub(r'[^\w\s]', ' ', ...)` on one character. -/
def punctToSpace (c : Char) : Char :=
  if pyWord c || pySpace c then c else ' '

/-- `re.sub(r'\s+', ' ', ...)`: every maximal whitespace run becomes a single
space (state `true`: inside a run whose space has been emitted). -/
def collapseS (inRun : Bool) (l : List Char) : List Char :=
  match inRun, l with
  | _, [] => []
  | true, c :: rest =>
    if pySpace c then collapseS true rest else c :: collapseS false rest
  | false, c :: rest =>
    if pySpace c then ' ' :: collapseS true rest else c :: collapseS false rest

/-- `re.sub(r'\s+', ' ', ...)`. -/
def collapseWs (l : List Char) : List Char := collapseS false l

/-- Remove trailing whitespace (the right half of `str.strip`). -/
def rstripWs (l : List Char) : List Char :=
  match l with
  | [] => []
  | c :: rest =>
    match rstripWs rest with
    | [] => if pySpace c then [] else [c]
    | d :: t => c :: d :: t

/-- Remove leading whitespace (the left half of `str.strip`). -/
def lstripWs (l : List Char) : List Char := l.dropWhile pySpace

/-- `str.strip()`. -/
def stripWs (l : List Char) : List Char := lstripWs (rstripWs l)

/-- `generalize_message` of `processing/knowledge_base.py` on the character
list: lowercase, replace IPv4 addresses, hexadecimal literals, file-system
paths and standalone numbers by fixed tokens, blank out punctuation, and
normalize whitespace.  (The non-string guard of the source is vacuous here
because the input is typed.) -/
def generalizeList (l : List Char) : List Char :=
  stripWs (collapseWs ((subNum (subPath (subHex (subIp
    (l.map asciiLower))))).map punctToSpace))

/-- `generalize_message` on strings. -/
def generalize_message (s : String) : String := ⟨generalizeList s.data⟩

/-! ## Shared list machinery: first-occurrence dedup and stable insertion sort -/

/-- Worker for `drop_duplicates(keep='first')`: `seen` holds the keys of rows
already kept. -/
def dropDupAux [DecidableEq β] (key : α → β) (seen : List β) : List α → List α
  | [] => []
  | x :: xs =>
    if key x ∈ seen then dropDupAux key seen xs
    else x :: dropDupAux key (key x :: seen) xs

/-- pandas `drop_duplicates(subset=key, keep='first')`: keep the first row of
each key, in order. -/
def drop_duplicates_first [DecidableEq β] (key : α → β) (l : List α) : List α :=
  dropDupAux key [] l

/-- Insert `x` after every element `b` with `bLt b x` (used with a strict
comparison, which keeps the insertion sort stable). -/
def insSorted (bLt : α → α → Bool) (x : α) : List α → List α
  | [] => [x]
  | b :: bs => if bLt b x then b :: insSorted bLt x bs else x :: b :: bs

/-- Stable insertion sort; `bLt b x` means `b` must stay before `x`. -/
def sortByB (bLt : α → α → Bool) : List α → List α
  | [] => []
  | x :: xs => insSorted bLt x (sortByB bLt xs)

/-! ## Data model of classified logs and the knowledge base -/

/-- One row of the classified-log table (`classified_logs` in the source):
a parsed WARNING/ERROR record stamped by the external matcher with
`final_anomaly_id` / `final_problem_id` (0 = unmatched). -/
structure CLog where
  Timestamp : Int
  Level : String
  Message : String
  file_name : String
  line_number : Nat
  log : String
  Generalized_Message : String
  final_anomaly_id : Int
  final_problem_id : Int
deriving DecidableEq, Repr

/-- One row of the anomaly table produced by `load_knowledge_base`. -/
structure KBAnomaly where
  anomaly_id : Int
  problem_id : Int
  Generalized_Anomaly : String
  Anomaly_Text : String
deriving DecidableEq, Repr

/-- One row of the problem table produced by `load_knowledge_base`. -/
structure KBProblem where
  problem_id : Int
  Generalized_Problem : String
  Problem_Text : String
deriving DecidableEq, Repr

/-- `re.search(r'\d+', name)`: the first maximal run of digits, if any. -/
def firstDigitRun : List Char → Option (List Char)
  | [] => none
  | c :: rest =>
    if pyDigit c then some (c :: rest.takeWhile pyDigit) else firstDigitRun rest

/-- Scenario identifier extracted from a case name: its first run of digits,
or the whole name when it has none. -/
def scenario_id_of (case_name : String) : String :=
  match firstDigitRun case_name.data with
  | some r => ⟨r⟩
  | none => case_name

/-! ## Orchestrator: primary-correlation dedup (`run_full_analysis_from_zip_bytes`,
`orchestrator.py` lines 378–399) -/

/-- `classified_logs[(Level == 'WARNING') & (final_problem_id != 0)]`. -/
def reportable_warnings (l : List CLog) : List CLog :=
  l.filter fun r => r.Level == "WARNING" && r.final_problem_id != 0

/-- The dedup subset `['final_anomaly_id', 'final_problem_id']`. -/
def pairKey (r : CLog) : Int × Int := (r.final_anomaly_id, r.final_problem_id)

/-- The orchestrator's `reportable_warnings.drop_duplicates(subset=
['final_anomaly_id', 'final_problem_id'], keep='first')`. -/
def dedupe_reportable_warnings (l : List CLog) : List CLog :=
  drop_duplicates_first pairKey (reportable_warnings l)

/-! ## `calculate_impact_metrics` (`report_generator.py` lines 28–87) -/

/-- One row of the impact-metric frame, indexed by problem id. -/
structure ImpactRow where
  final_problem_id : Int
  anomaly_count : Nat
  unique_systems_affected : Nat
  Impact_Score : Nat
deriving DecidableEq, Repr

/-- pandas `nunique`: number of distinct values. -/
def nunique [DecidableEq α] (l : List α) : Nat := (drop_duplicates_first id l).length

/-- The group keys of `groupby('final_problem_id')` over the deduplicated
reportable WARNINGs (groupby sorts group keys ascending). -/
def impactPids (l : List CLog) : List Int :=
  sortByB (fun a b => a < b)
    (drop_duplicates_first id ((dedupe_reportable_warnings l).map (·.final_problem_id)))

/-- The aggregated metric row of one problem-id group: row count,
distinct-`file_name` count, and their product as `Impact_Score`. -/
def impactRow (l : List CLog) (p : Int) : ImpactRow :=
  { final_problem_id := p
    anomaly_count := ((dedupe_reportable_warnings l).filter
      (fun r => r.final_problem_id == p)).length
    unique_systems_affected := nunique (((dedupe_reportable_warnings l).filter
      (fun r => r.final_problem_id == p)).map (·.file_name))
    Impact_Score := ((dedupe_reportable_warnings l).filter
        (fun r => r.final_problem_id == p)).length *
      nunique (((dedupe_reportable_warnings l).filter
        (fun r => r.final_problem_id == p)).map (·.file_name)) }

/-- The aggregated frame, one row per group key. -/
def impactRows (l : List CLog) : List ImpactRow := (impactPids l).map (impactRow l)

/-- `calculate_impact_metrics`: restrict to reportable WARNINGs, dedup by the
(anomaly, problem) pair, group by problem id, aggregate count and
distinct-file count, score their product, and sort the rows by descending
`Impact_Score`. -/
def calculate_impact_metrics (l : List CLog) : List ImpactRow :=
  if (reportable_warnings l).isEmpty then []
  else sortByB (fun a b => b.Impact_Score < a.Impact_Score) (impactRows l)

/-! ## `identify_novel_anomalies` (`report_generator.py` lines 299–405) -/

/-- One row of the novel-anomaly frame (structure of `submit_report.xlsx`). -/
structure NovelAlert where
  scenario_id : String
  anomaly_id : Int
  problem_id : Int
  file_name : String
  line_number : Nat
  log : String
deriving DecidableEq, Repr

/-- Unclassified WARNINGs, deduplicated by `(Generalized_Message, file_name)`
keeping the first occurrence. -/
def novel_warnings (l : List CLog) : List CLog :=
  drop_duplicates_first (fun r => (r.Generalized_Message, r.file_name))
    (l.filter fun r => r.Level == "WARNING" && r.final_problem_id == 0)

/-- Classified ERRORs sorted ascending by timestamp. -/
def known_errors (l : List CLog) : List CLog :=
  sortByB (fun a b => a.Timestamp < b.Timestamp)
    (l.filter fun r => r.Level == "ERROR" && r.final_problem_id != 0)

/-- The classified ERRORs inside the look-back window ending at the novel
WARNING's timestamp. -/
def potential_causes (l : List CLog) (window : Int) (w : CLog) : List CLog :=
  (known_errors l).filter fun e =>
    decide (w.Timestamp - window ≤ e.Timestamp) && decide (e.Timestamp ≤ w.Timestamp)

/-- The loop body of `identify_novel_anomalies` for one deduplicated novel
WARNING: correlate with the last (latest-timestamp) in-window classified
ERROR, if any. -/
def novel_alert_for (l : List CLog) (window : Int) (sid : String) (w : CLog) :
    Option NovelAlert :=
  match (potential_causes l window w).getLast? with
  | none => none
  | some e => some
      { scenario_id := sid, anomaly_id := 0, problem_id := e.final_problem_id
        file_name := w.file_name, line_number := w.line_number, log := w.log }

/-- `identify_novel_anomalies`; `window` is the configured
`NOVEL_ANOMALY_WINDOW_MINUTES` timedelta expressed in the timestamp unit. -/
def identify_novel_anomalies (l : List CLog) (case_name : String) (window : Int) :
    List NovelAlert :=
  if (l.filter fun r => r.Level == "WARNING" && r.final_problem_id == 0).isEmpty then []
  else if (l.filter fun r => r.Level == "ERROR" && r.final_problem_id != 0).isEmpty then []
  else (novel_warnings l).filterMap (novel_alert_for l window (scenario_id_of case_name))

/-! ## `generate_predictive_alerts` (`report_generator.py` lines 187–296) -/

/-- One predictive alert row. -/
structure PredictiveAlert where
  scenario_id : String
  alert_type : String
  trigger_problem_id : Int
  problem_text : String
  trigger_time : Int
  trigger_log : String
  predicted_anomaly_id : Int
  predicted_text : String
  rationale : String
deriving DecidableEq, Repr

/-- `classified_logs[(Level == 'ERROR') & (final_problem_id != 0)]`. -/
def detected_errors (l : List CLog) : List CLog :=
  l.filter fun r => r.Level == "ERROR" && r.final_problem_id != 0

/-- `detected_errors['final_problem_id'].unique()` (first-occurrence order). -/
def unique_problem_ids (l : List CLog) : List Int :=
  drop_duplicates_first id ((detected_errors l).map (·.final_problem_id))

/-- The anomaly ids that already occurred among the WARNINGs classified to
problem `p` (after the pair dedup, as in the source). -/
def occurred_anomaly_ids (l : List CLog) (p : Int) : List Int :=
  drop_duplicates_first id
    ((drop_duplicates_first pairKey
        (l.filter fun r => r.Level == "WARNING" && r.final_problem_id == p)).map
      (·.final_anomaly_id))

/-- The trigger: first row of the timestamp-sorted classified ERRORs of
problem `p` (`.sort_values('Timestamp').iloc[0]`); `none` cannot occur for a
`p` drawn from `unique_problem_ids`. -/
def trigger_error (l : List CLog) (p : Int) : Option CLog :=
  (sortByB (fun a b => a.Timestamp < b.Timestamp)
    ((detected_errors l).filter fun r => r.final_problem_id == p)).head?

/-- Problem description looked up in the problem table (first matching row),
with the source's fallback text. -/
def problem_text_for (problems_kb : List KBProblem) (p : Int) : String :=
  match (problems_kb.filter fun row => row.problem_id == p).head? with
  | some row => row.Problem_Text
  | none => "Описание не найдено для ID " ++ toString p

/-- The alert dictionary built in the inner loop of
`generate_predictive_alerts`. -/
def mkPrediction (sid : String) (p : Int) (ptext : String) (trig : CLog)
    (row : KBAnomaly) : PredictiveAlert :=
  { scenario_id := sid
    alert_type := "ПРЕДСКАЗАНИЕ"
    trigger_problem_id := p
    problem_text := ptext
    trigger_time := trig.Timestamp
    trigger_log := trig.log
    predicted_anomaly_id := row.anomaly_id
    predicted_text := row.Anomaly_Text
    rationale := "Это предупреждение часто сопровождает проблему ID " ++ toString p ++
      ", но еще не было зафиксировано в логах после возникновения триггера." }

/-- One iteration of the problem loop of `generate_predictive_alerts`: all
alerts emitted for problem `p` (the `none` trigger case cannot arise for a
`p` drawn from `unique_problem_ids`). -/
def predictionsFor (l : List CLog) (anomalies_kb : List KBAnomaly)
    (problems_kb : List KBProblem) (case_name : String) (p : Int) :
    List PredictiveAlert :=
  match trigger_error l p with
  | none => []
  | some trig =>
    (anomalies_kb.filter fun row => row.problem_id == p).filterMap fun row =>
      if row.anomaly_id ∈ occurred_anomaly_ids l p then none
      else some (mkPrediction (scenario_id_of case_name) p
        (problem_text_for problems_kb p) trig row)

/-- `generate_predictive_alerts`: for every distinct problem id among the
classified ERRORs, emit one alert per anomaly-table row of that problem whose
anomaly id has not occurred among the problem's WARNINGs. -/
def generate_predictive_alerts (l : List CLog) (anomalies_kb : List KBAnomaly)
    (problems_kb : List KBProblem) (case_name : String) : List PredictiveAlert :=
  if (detected_errors l).isEmpty then []
  else (unique_problem_ids l).flatMap
    (predictionsFor l anomalies_kb problems_kb case_name)

/-! ## `load_knowledge_base` (`knowledge_base.py` lines 94–181) -/

/-- The two error classes `load_knowledge_base` can raise itself:
`FileNotFoundError` for a missing path and `ValueError` for an unsupported
extension. -/
inductive LoadErr where
  | fileNotFound
  | unsupportedFormat
deriving DecidableEq, Repr

/-- One raw catalog row with the four logical columns. -/
structure KBRow where
  anomaly_id : Int
  Anomaly_Text : String
  problem_id : Int
  Problem_Text : String
deriving DecidableEq, Repr

/-- Abstraction of the file system and of `pd.read_csv`/`pd.read_excel`:
which paths exist, and the normalized four-column table a readable catalog
file parses to (both readers are normalized to the same shape by the
source's explicit column names). -/
structure CatalogFS where
  pathExists : String → Bool
  rows : String → List KBRow

/-- The basename: characters after the last `'/'`. -/
def afterLastSlash (l : List Char) : List Char :=
  l.foldl (fun acc c => if c = '/' then [] else acc ++ [c]) []

/-- `os.path.splitext(p)[1]` (POSIX): the extension starts at the last dot of
the basename, unless every character before that dot is itself a dot. -/
def splitextExt (p : String) : String :=
  let base := afterLastSlash p.data
  let rev := base.reverse
  let afterDot := rev.takeWhile (fun c => c ≠ '.')
  match rev.dropWhile (fun c => c ≠ '.') with
  | [] => ""
  | _ :: beforeRev =>
    if beforeRev.any (fun c => c ≠ '.') then ⟨'.' :: afterDot.reverse⟩ else ""

/-- `str.lower` (ASCII). -/
def strLower (s : String) : String := ⟨s.data.map asciiLower⟩

/-- The anomaly table: every catalog row verbatim, plus the generalized text
(`anomalies_kb` in the source; duplicates are deliberately retained). -/
def anomalies_table (kb : List KBRow) : List KBAnomaly :=
  kb.map fun row =>
    { anomaly_id := row.anomaly_id
      problem_id := row.problem_id
      Generalized_Anomaly := generalize_message row.Anomaly_Text
      Anomaly_Text := row.Anomaly_Text }

/-- The problem table: projected rows with generalized text, full-row
deduplicated (`problems_kb.drop_duplicates()`). -/
def problems_table (kb : List KBRow) : List KBProblem :=
  drop_duplicates_first id
    (kb.map fun row =>
      { problem_id := row.problem_id
        Generalized_Problem := generalize_message row.Problem_Text
        Problem_Text := row.Problem_Text })

/-- `load_knowledge_base`: fail with `FileNotFoundError` when the path does
not exist; otherwise dispatch on the lowercased extension, failing with
`ValueError` outside `{.csv, .xlsx, .xls}`; otherwise read and build the two
tables. -/
def load_knowledge_base (fs : CatalogFS) (kb_path : String) :
    Except LoadErr (List KBAnomaly × List KBProblem) :=
  if fs.pathExists kb_path then
    let ext := strLower (splitextExt kb_path)
    if ext == ".csv" || ext == ".xlsx" || ext == ".xls" then
      let kb := fs.rows kb_path
      Except.ok (anomalies_table kb, problems_table kb)
    else Except.error LoadErr.unsupportedFormat
  else Except.error LoadErr.fileNotFound

/-! ## Log parser (`log_parser.py`) -/

/-- The parse result of `parse_log_line` (the 4-tuple of the source). -/
structure ParsedLine where
  timestamp : Option String
  level : String
  category : String
  message : String
deriving DecidableEq, Repr

/-- Expect exactly `n` digits; return them and the rest. -/
def expectDigits (n : Nat) (l : List Char) : Option (List Char × List Char) :=
  let ds := l.take n
  if ds.length = n ∧ ds.all pyDigit then some (ds, l.drop n) else none

/-- Expect a fixed character. -/
def expectChar (c : Char) : List Char → Option (List Char)
  | d :: t => if d = c then some t else none
  | [] => none

/-- The anchored timestamp group
`(\d{4}-\d{2}-\d{2}T\d{2}:\d{2}:\d{2})`: returns the matched text and the
rest. -/
def tsMatch (l : List Char) : Option (List Char × List Char) := do
  let (a, r1) ← expectDigits 4 l
  let r2 ← expectChar '-' r1
  let (b, r3) ← expectDigits 2 r2
  let r4 ← expectChar '-' r3
  let (c, r5) ← expectDigits 2 r4
  let r6 ← expectChar 'T' r5
  let (d, r7) ← expectDigits 2 r6
  let r8 ← expectChar ':' r7
  let (e, r9) ← expectDigits 2 r8
  let r10 ← expectChar ':' r9
  let (f, r11) ← expectDigits 2 r10
  pure (a ++ '-' :: b ++ '-' :: c ++ 'T' :: d ++ ':' :: e ++ ':' :: f, r11)

/-- `re.match` of
`(\d{4}-\d{2}-\d{2}T\d{2}:\d{2}:\d{2})\s+(\w+)\s+([^:]+):\s+(.*)`.
After the timestamp, `\s+` then the greedy `\w+` take maximal runs.  The
second `\s+` and the greedy `([^:]+)` interact by backtracking: with `sp` the
maximal whitespace run, the first colon after it at distance ≥ 1 makes the
category the run up to the colon; a colon immediately after the run forces
one whitespace character back into the category (possible only when the run
has length ≥ 2).  After the colon, `\s+` takes a nonempty maximal whitespace
run and `(.*)` the rest of the line up to a newline. -/
def matchLogLine (l : List Char) :
    Option (List Char × List Char × List Char × List Char) := do
  let (ts, r) ← tsMatch l
  let ws1 := r.takeWhile pySpace
  let r1 := r.dropWhile pySpace
  if ws1 = [] then none else
  let lvl := r1.takeWhile pyWord
  let r2 := r1.dropWhile pyWord
  if lvl = [] then none else
  let sp := r2.takeWhile pySpace
  let r3 := r2.dropWhile pySpace
  if sp = [] then none else
  let pre := r3.takeWhile (fun c => c ≠ ':')
  match r3.dropWhile (fun c => c ≠ ':') with
  | ':' :: post =>
    let cat ← if pre ≠ [] then some pre
              else if 2 ≤ sp.length then some [sp.getLastD ' ']
              else none
    let ws2 := post.takeWhile pySpace
    if ws2 = [] then none else
    let msg := (post.dropWhile pySpace).takeWhile (fun c => c ≠ '\n')
    pure (ts, lvl, cat, msg)
  | _ => none

/-- `parse_log_line`: the regex groups on a match, and
`(None, 'UNKNOWN', 'UNKNOWN', line)` otherwise. -/
def parse_log_line (line : String) : ParsedLine :=
  match matchLogLine line.data with
  | some (ts, lvl, cat, msg) => ⟨some ⟨ts⟩, ⟨lvl⟩, ⟨cat⟩, ⟨msg⟩⟩
  | none => ⟨none, "UNKNOWN", "UNKNOWN", line⟩

/-- Gregorian leap year. -/
def isLeapYear (y : Nat) : Bool := (y % 4 == 0 && y % 100 != 0) || y % 400 == 0

/-- Days in a month. -/
def daysInMonth (y m : Nat) : Nat :=
  if m = 2 then (if isLeapYear y then 29 else 28)
  else if m = 4 ∨ m = 6 ∨ m = 9 ∨ m = 11 then 30
  else 31

/-- Value of a digit string. -/
def digitsToNat (l : List Char) : Nat :=
  l.foldl (fun a c => a * 10 + (c.toNat - '0'.toNat)) 0

/-- `pd.to_datetime(..., errors='coerce')` on a captured timestamp string:
`none` models coercion to `NaT` (later dropped by `dropna`); a valid
instant is mapped to an integer key that orders timestamps
chronologically.  Calendar validity (month, day-of-month with leap years,
hour, minute, second ranges) is modelled; the pandas nanosecond
representability range on years is not. -/
def parse_timestamp (l : List Char) : Option Int :=
  match tsMatch l with
  | none => none
  | some (_, rest) =>
    if rest ≠ [] then none
    else
      let y := digitsToNat (l.take 4)
      let mo := digitsToNat ((l.drop 5).take 2)
      let d := digitsToNat ((l.drop 8).take 2)
      let h := digitsToNat ((l.drop 11).take 2)
      let mi := digitsToNat ((l.drop 14).take 2)
      let s := digitsToNat ((l.drop 17).take 2)
      if 1 ≤ mo ∧ mo ≤ 12 ∧ 1 ≤ d ∧ d ≤ daysInMonth y mo ∧ h ≤ 23 ∧ mi ≤ 59 ∧ s ≤ 59 then
        some (((((y * 13 + mo) * 32 + d) * 24 + h) * 60 + mi) * 60 + s : Nat)
      else none

/-- A fully parsed log record as produced by `process_all_logs_for_case`. -/
structure LogRec where
  Timestamp : Int
  Level : String
  Message : String
  file_name : String
  line_number : Nat
  log : String
  Generalized_Message : String
deriving DecidableEq, Repr

/-- `' INFO '` — the substring whose presence in a stripped line makes the
per-line loop skip it. -/
def infoMarker : List Char := " INFO ".data

/-- `pat.isPrefixOf l` written out. -/
def startsWithL : List Char → List Char → Bool
  | [], _ => true
  | _ :: _, [] => false
  | p :: ps, c :: cs => p = c && startsWithL ps cs

/-- Python `pat in l` (substring containment). -/
def containsSeq (pat : List Char) : List Char → Bool
  | [] => startsWithL pat []
  | c :: rest => startsWithL pat (c :: rest) || containsSeq pat rest

/-- `str.strip()` on strings. -/
def pyStrip (s : String) : String := ⟨stripWs s.data⟩

/-- The per-line body of the collection loop of `process_all_logs_for_case`
(lines 115–134): strip; skip when empty or containing `' INFO '`; parse; keep
only WARNING/ERROR (1-based line numbers; the stripped line is stored as the
raw `log`). -/
def line_record (fname : String) (idx : Nat) (line : String) :
    Option (Option String × LogRec) :=
  if pyStrip line == "" || containsSeq infoMarker (pyStrip line).data then none
  else if (parse_log_line (pyStrip line)).level == "WARNING" ||
      (parse_log_line (pyStrip line)).level == "ERROR" then
    some ((parse_log_line (pyStrip line)).timestamp,
      { Timestamp := 0, Level := (parse_log_line (pyStrip line)).level
        Message := (parse_log_line (pyStrip line)).message
        file_name := fname, line_number := idx + 1, log := pyStrip line
        Generalized_Message := "" })
  else none

/-- A line's surviving record after the `to_datetime`/`dropna` stage: the
collected record with its parsed timestamp. -/
def line_final (fname : String) (idx : Nat) (line : String) : Option LogRec :=
  match line_record fname idx line with
  | none => none
  | some (none, _) => none
  | some (some ts, r) => (parse_timestamp ts.data).map fun k => { r with Timestamp := k }

/-- `process_all_logs_for_case` on a directory modelled as named files with
their lines: collect WARNING/ERROR records, drop records with unparseable
timestamps, sort ascending by timestamp, and compute the generalized
message. -/
def process_all_logs_for_case (files : List (String × List String)) : List LogRec :=
  let withTs := files.flatMap fun fl =>
    (fl.2.enum).filterMap fun p => line_final fl.1 p.1 p.2
  let sorted := sortByB (fun a b => a.Timestamp < b.Timestamp) withTs
  sorted.map fun r => { r with Generalized_Message := generalize_message r.Message }

/-! ## Supporting lemmas: dedup, sort and order -/

theorem dropDupAux_subset [DecidableEq β] (key : α → β) (seen : List β)
    (l : List α) : ∀ x ∈ dropDupAux key seen l, x ∈ l := by
  induction l generalizing seen with
  | nil => intro x hx; simp [dropDupAux] at hx
  | cons a t ih =>
    intro x hx
    by_cases h : key a ∈ seen
    · simp only [dropDupAux, if_pos h] at hx
      exact List.mem_cons_of_mem _ (ih _ x hx)
    · simp only [dropDupAux, if_neg h, List.mem_cons] at hx
      rcases hx with h1 | h2
      · exact h1 ▸ List.mem_cons_self _ _
      · exact List.mem_cons_of_mem _ (ih _ x h2)

theorem mem_key_dropDupAux [DecidableEq β] (key : α → β) (seen : List β)
    (l : List α) (x : α) (hx : x ∈ l) :
    key x ∈ seen ∨ ∃ y ∈ dropDupAux key seen l, key y = key x := by
  induction l generalizing seen with
  | nil => cases hx
  | cons a t ih =>
    by_cases h : key a ∈ seen
    · rcases List.mem_cons.mp hx with rfl | hxt
      · exact Or.inl h
      · rcases ih seen hxt with h1 | ⟨y, hy, hk⟩
        · exact Or.inl h1
        · exact Or.inr ⟨y, by simpa [dropDupAux, h] using hy, hk⟩
    · rcases List.mem_cons.mp hx with rfl | hxt
      · exact Or.inr ⟨x, by simp [dropDupAux, h], rfl⟩
      · rcases ih (key a :: seen) hxt with h1 | ⟨y, hy, hk⟩
        · rcases List.mem_cons.mp h1 with h2 | h2
          · exact Or.inr ⟨a, by simp [dropDupAux, h], h2.symm⟩
          · exact Or.inl h2
        · exact Or.inr ⟨y, by simp [dropDupAux, h, hy], hk⟩

theorem filter_dropDupAux [DecidableEq β] (key : α → β) (k : β) (seen : List β)
    (l : List α) :
    (dropDupAux key seen l).filter (fun a => decide (key a = k)) =
      if k ∈ seen then [] else (l.filter (fun a => decide (key a = k))).take 1 := by
  induction l generalizing seen with
  | nil => simp [dropDupAux]
  | cons a t ih =>
    rw [dropDupAux]
    by_cases h : key a ∈ seen
    · rw [if_pos h, ih]
      by_cases hk : k ∈ seen
      · simp [hk]
      · have hak : (decide (key a = k)) = false := by
          simp only [decide_eq_false_iff_not]
          intro he
          exact hk (by rwa [he] at h)
        simp [hk, List.filter_cons, hak]
    · rw [if_neg h, List.filter_cons]
      by_cases hak : key a = k
      · have hk : k ∉ seen := by
          intro hin
          exact h (by rwa [hak])
        have h2 : k ∈ key a :: seen := by simp [hak]
        rw [if_pos (by simpa using hak), ih, if_pos h2, if_neg hk,
          List.filter_cons, if_pos (by simpa using hak)]
        simp
      · have h2 : (k ∈ key a :: seen) ↔ (k ∈ seen) := by
          constructor
          · intro hin
            rcases List.mem_cons.mp hin with he | he
            · exact absurd he.symm hak
            · exact he
          · exact fun hin => List.mem_cons_of_mem _ hin
        rw [if_neg (by simpa using hak), ih]
        by_cases hk : k ∈ seen
        · rw [if_pos (h2.mpr hk), if_pos hk]
        · rw [if_neg (fun hin => hk (h2.mp hin)), if_neg hk, List.filter_cons,
            if_neg (by simpa using hak)]

theorem filter_drop_duplicates_first [DecidableEq β] (key : α → β) (k : β)
    (l : List α) :
    (drop_duplicates_first key l).filter (fun a => decide (key a = k)) =
      (l.filter (fun a => decide (key a = k))).take 1 := by
  rw [drop_duplicates_first, filter_dropDupAux]
  simp

theorem insSorted_perm (bLt : α → α → Bool) (x : α) (l : List α) :
    (insSorted bLt x l).Perm (x :: l) := by
  induction l with
  | nil => simp [insSorted]
  | cons b bs ih =>
    by_cases h : bLt b x
    · rw [insSorted, if_pos h]
      exact (ih.cons b).trans (List.Perm.swap x b bs)
    · rw [insSorted, if_neg h]

theorem sortByB_perm (bLt : α → α → Bool) (l : List α) :
    (sortByB bLt l).Perm l := by
  induction l with
  | nil => simp [sortByB]
  | cons x xs ih =>
    exact ((insSorted_perm bLt x (sortByB bLt xs)).trans (ih.cons x))

theorem insSorted_pairwise {R : α → α → Prop} {bLt : α → α → Bool}
    (h1 : ∀ a b, bLt a b = true → R a b) (h2 : ∀ a b, bLt a b = false → R b a)
    (htrans : ∀ a b c, R a b → R b c → R a c)
    (x : α) (l : List α) (hl : l.Pairwise R) : (insSorted bLt x l).Pairwise R := by
  induction l with
  | nil => simp [insSorted]
  | cons b bs ih =>
    rcases List.pairwise_cons.mp hl with ⟨hb, hbs⟩
    by_cases h : bLt b x
    · rw [insSorted, if_pos h]
      refine List.pairwise_cons.mpr ⟨?_, ih hbs⟩
      intro y hy
      rcases List.mem_cons.mp ((insSorted_perm bLt x bs).mem_iff.mp hy) with rfl | h3
      · exact h1 _ _ h
      · exact hb y h3
    · rw [insSorted, if_neg h]
      refine List.pairwise_cons.mpr ⟨?_, hl⟩
      intro y hy
      rcases List.mem_cons.mp hy with rfl | h3
      · exact h2 _ _ (by simpa using h)
      · exact htrans _ _ _ (h2 _ _ (by simpa using h)) (hb y h3)

theorem sortByB_pairwise {R : α → α → Prop} {bLt : α → α → Bool}
    (h1 : ∀ a b, bLt a b = true → R a b) (h2 : ∀ a b, bLt a b = false → R b a)
    (htrans : ∀ a b c, R a b → R b c → R a c)
    (l : List α) : (sortByB bLt l).Pairwise R := by
  induction l with
  | nil => simp [sortByB]
  | cons x xs ih => exact insSorted_pairwise h1 h2 htrans x _ ih

/-- Boolean check that a classified-log table is ascending by `Timestamp`
(adjacent comparison), the order in which the parser produces rows. -/
def sortedByTs : List CLog → Bool
  | [] => true
  | [_] => true
  | a :: b :: t => decide (a.Timestamp ≤ b.Timestamp) && sortedByTs (b :: t)

theorem sortedByTs_pairwise :
    ∀ {l : List CLog}, sortedByTs l = true →
      l.Pairwise (fun a b => a.Timestamp ≤ b.Timestamp)
  | [], _ => List.Pairwise.nil
  | [a], _ => by simp
  | a :: b :: t, h => by
    have hab : a.Timestamp ≤ b.Timestamp := by
      have := (Bool.and_eq_true _ _).mp h
      simpa using this.1
    have ht : sortedByTs (b :: t) = true := ((Bool.and_eq_true _ _).mp h).2
    have hp := sortedByTs_pairwise ht
    refine List.pairwise_cons.mpr ⟨?_, hp⟩
    intro y hy
    rcases List.mem_cons.mp hy with rfl | hyt
    · exact hab
    · exact le_trans hab ((List.pairwise_cons.mp hp).1 y hyt)

theorem find?_eq_head_filter (q : α → Bool) (l : List α) :
    l.find? q = (l.filter q).head? := by
  induction l with
  | nil => rfl
  | cons a t ih =>
    by_cases h : q a = true
    · rw [List.find?_cons_of_pos _ h, List.filter_cons_of_pos h]
      rfl
    · rw [List.find?_cons_of_neg _ h, List.filter_cons_of_neg h, ih]

theorem find?_min {R : α → α → Prop} {q : α → Bool} :
    ∀ {l : List α} {r : α}, l.Pairwise R → l.find? q = some r →
      ∀ r' ∈ l, q r' = true → R r r' ∨ r = r'
  | [], r, _, hr => by simp at hr
  | a :: t, r, h, hr => by
    intro r' hr' hq
    rcases List.pairwise_cons.mp h with ⟨ha, ht⟩
    by_cases hqa : q a = true
    · have : r = a := by
        rw [List.find?_cons_of_pos _ hqa] at hr
        exact (Option.some.inj hr).symm
      subst this
      rcases List.mem_cons.mp hr' with rfl | hmem
      · exact Or.inr rfl
      · exact Or.inl (ha r' hmem)
    · rw [List.find?_cons_of_neg _ hqa] at hr
      rcases List.mem_cons.mp hr' with rfl | hmem
      · exact absurd hq hqa
      · exact find?_min ht hr r' hmem hq

theorem head?_min {R : α → α → Prop} {l : List α} {r : α}
    (h : l.Pairwise R) (hr : l.head? = some r) : ∀ x ∈ l, R r x ∨ r = x := by
  cases l with
  | nil => cases hr
  | cons a t =>
    have : r = a := (Option.some.inj (by simpa using hr)).symm
    subst this
    intro x hx
    rcases List.mem_cons.mp hx with rfl | hmem
    · exact Or.inr rfl
    · exact Or.inl ((List.pairwise_cons.mp h).1 x hmem)

theorem getLast?_mem_list : ∀ {l : List α} {r : α}, l.getLast? = some r → r ∈ l
  | [], r, h => by cases h
  | [a], r, h => by
    have : r = a := (Option.some.inj (by simpa using h)).symm
    simp [this]
  | a :: b :: t, r, h => by
    rw [List.getLast?_cons_cons] at h
    exact List.mem_cons_of_mem _ (getLast?_mem_list h)

theorem getLast?_max {R : α → α → Prop} :
    ∀ {l : List α} {r : α}, l.Pairwise R → l.getLast? = some r →
      ∀ x ∈ l, R x r ∨ x = r
  | [], r, _, hr => by simp at hr
  | [a], r, _, hr => by
    have : r = a := (Option.some.inj (by simpa using hr)).symm
    subst this
    intro x hx
    simp at hx
    simp [hx]
  | a :: b :: t, r, h, hr => by
    rw [List.getLast?_cons_cons] at hr
    rcases List.pairwise_cons.mp h with ⟨ha, ht⟩
    intro x hx
    rcases List.mem_cons.mp hx with rfl | hmem
    · exact Or.inl (ha r (getLast?_mem_list hr))
    · exact getLast?_max ht hr x hmem

theorem mem_reportable_warnings {l : List CLog} {x : CLog} :
    x ∈ reportable_warnings l ↔
      x ∈ l ∧ x.Level = "WARNING" ∧ x.final_problem_id ≠ 0 := by
  simp [reportable_warnings, List.mem_filter, and_assoc]

theorem reportable_pairwise {l : List CLog} (hs : sortedByTs l = true) :
    (reportable_warnings l).Pairwise (fun a b => a.Timestamp ≤ b.Timestamp) :=
  (sortedByTs_pairwise hs).sublist (List.filter_sublist l)

/-- Claim C1: on a classified-log table sorted ascending by `Timestamp`, the
orchestrator's primary-correlation dedup keeps exactly one row per distinct
`(final_anomaly_id, final_problem_id)` pair among reportable WARNINGs —
namely the first, hence earliest-timestamp, occurrence of that pair — and
keeps nothing else. -/
theorem C1_dedup_keeps_earliest (l : List CLog) (hs : sortedByTs l = true)
    (p : Int × Int) (hp : p ∈ (reportable_warnings l).map pairKey) :
    ∃ r, (reportable_warnings l).find? (fun a => decide (pairKey a = p)) = some r ∧
      (dedupe_reportable_warnings l).filter (fun a => decide (pairKey a = p)) = [r] ∧
      r ∈ reportable_warnings l ∧
      (∀ x ∈ dedupe_reportable_warnings l, x ∈ reportable_warnings l) ∧
      ∀ r' ∈ reportable_warnings l, pairKey r' = p → r.Timestamp ≤ r'.Timestamp := by
  obtain ⟨x, hx, hkx⟩ := List.mem_map.mp hp
  have hfil : x ∈ (reportable_warnings l).filter (fun a => decide (pairKey a = p)) :=
    List.mem_filter.mpr ⟨hx, by simpa using hkx⟩
  cases hfe : (reportable_warnings l).filter (fun a => decide (pairKey a = p)) with
  | nil => rw [hfe] at hfil; cases hfil
  | cons r rest =>
    have hfind : (reportable_warnings l).find? (fun a => decide (pairKey a = p)) = some r := by
      rw [find?_eq_head_filter, hfe]
      rfl
    refine ⟨r, hfind, ?_, ?_, ?_, ?_⟩
    · rw [dedupe_reportable_warnings, filter_drop_duplicates_first, hfe]
      rfl
    · exact List.mem_of_mem_filter (hfe ▸ List.mem_cons_self r rest)
    · exact fun y hy => dropDupAux_subset _ _ _ y hy
    · intro r' hr' hkr'
      rcases find?_min (reportable_pairwise hs) hfind r' hr' (by simpa using hkr') with
        hle | heq
      · exact hle
      · exact heq ▸ le_refl _

/-- A reportable WARNING occurrence (earlier of the C1 witness pair). -/
def exW1 : CLog :=
  { Timestamp := 10, Level := "WARNING", Message := "disk latency high"
    file_name := "a.txt", line_number := 1, log := "raw warning 1"
    Generalized_Message := "disk latency high", final_anomaly_id := 5
    final_problem_id := 7 }

/-- A duplicate of the same `(anomaly, problem)` pair at a later timestamp. -/
def exW2 : CLog :=
  { Timestamp := 20, Level := "WARNING", Message := "disk latency high again"
    file_name := "b.txt", line_number := 2, log := "raw warning 2"
    Generalized_Message := "disk latency high", final_anomaly_id := 5
    final_problem_id := 7 }

theorem C1_dedup_keeps_earliest_witness :
    (reportable_warnings [exW1, exW2]).find? (fun a => decide (pairKey a = (5, 7))) =
        some exW1 ∧
      (dedupe_reportable_warnings [exW1, exW2]).filter
        (fun a => decide (pairKey a = (5, 7))) = [exW1] ∧
      exW1.Timestamp ≤ exW2.Timestamp := by
  obtain ⟨r, h1, h2, -, -, h5⟩ :=
    C1_dedup_keeps_earliest [exW1, exW2] (by decide) (5, 7) (by decide)
  have hr : r = exW1 := by
    have hconc : (reportable_warnings [exW1, exW2]).find?
        (fun a => decide (pairKey a = (5, 7))) = some exW1 := by decide
    rw [hconc] at h1
    exact (Option.some.inj h1).symm
  subst hr
  exact ⟨h1, h2, h5 exW2 (by decide) (by decide)⟩

theorem keys_dropDupAux_nodup [DecidableEq β] (key : α → β) :
    ∀ (seen : List β) (l : List α),
      ((dropDupAux key seen l).map key).Nodup ∧
        ∀ k ∈ (dropDupAux key seen l).map key, k ∉ seen := by
  intro seen l
  induction l generalizing seen with
  | nil => simp [dropDupAux]
  | cons a t ih =>
    by_cases h : key a ∈ seen
    · simpa [dropDupAux, h] using ih seen
    · rcases ih (key a :: seen) with ⟨hnd, hdisj⟩
      refine ⟨?_, ?_⟩
      · simp only [dropDupAux, if_neg h, List.map_cons]
        refine List.nodup_cons.mpr ⟨?_, hnd⟩
        intro hmem
        exact (hdisj _ hmem) (List.mem_cons_self _ _)
      · intro k hk
        simp only [dropDupAux, if_neg h, List.map_cons, List.mem_cons] at hk
        rcases hk with rfl | hk
        · exact h
        · exact fun hs => (hdisj _ hk) (List.mem_cons_of_mem _ hs)

theorem nodup_drop_duplicates_first_id [DecidableEq α] (l : List α) :
    (drop_duplicates_first id l).Nodup := by
  have := (keys_dropDupAux_nodup (id : α → α) [] l).1
  simpa using this

theorem mem_drop_duplicates_first_id [DecidableEq α] (l : List α) (x : α) :
    x ∈ drop_duplicates_first id l ↔ x ∈ l := by
  constructor
  · exact fun h => dropDupAux_subset _ _ _ x h
  · intro h
    rcases mem_key_dropDupAux (id : α → α) [] l x h with h1 | ⟨y, hy, hk⟩
    · cases h1
    · exact (show y = x from hk) ▸ hy

theorem mem_pid_dedupe {l : List CLog} {p : Int} :
    p ∈ (dedupe_reportable_warnings l).map (·.final_problem_id) ↔
      p ∈ (reportable_warnings l).map (·.final_problem_id) := by
  constructor
  · intro h
    rcases List.mem_map.mp h with ⟨y, hy, hk⟩
    exact List.mem_map.mpr ⟨y, dropDupAux_subset _ _ _ y hy, hk⟩
  · intro h
    rcases List.mem_map.mp h with ⟨x, hx, hk⟩
    rcases mem_key_dropDupAux pairKey [] (reportable_warnings l) x hx with h1 | ⟨y, hy, hky⟩
    · cases h1
    · refine List.mem_map.mpr ⟨y, hy, ?_⟩
      have : y.final_anomaly_id = x.final_anomaly_id ∧
          y.final_problem_id = x.final_problem_id := Prod.mk.injEq .. ▸ Prod.ext_iff.mp hky
      rw [this.2, hk]

/-- Claim C2 (amended): `calculate_impact_metrics` returns exactly one row
per problem id having a reportable WARNING; each row's `anomaly_count` is the
number of deduplicated `(final_anomaly_id, final_problem_id)` pairs of that
problem, `unique_systems_affected` the number of distinct `file_name` values
among those deduplicated rows, and `Impact_Score` their product; and the rows
are sorted in non-increasing (descending, ties permitted) order of
`Impact_Score`.  (The unamended claim asserts a strictly descending order,
which fails when two problems tie.) -/
theorem C2_impact_metrics_amended (l : List CLog) :
    ((calculate_impact_metrics l).map (·.final_problem_id)).Nodup ∧
    (∀ p : Int, p ∈ (calculate_impact_metrics l).map (·.final_problem_id) ↔
      p ∈ (reportable_warnings l).map (·.final_problem_id)) ∧
    (∀ row ∈ calculate_impact_metrics l,
      row.anomaly_count = ((dedupe_reportable_warnings l).filter
        (fun r => r.final_problem_id == row.final_problem_id)).length ∧
      row.unique_systems_affected = nunique (((dedupe_reportable_warnings l).filter
        (fun r => r.final_problem_id == row.final_problem_id)).map (·.file_name)) ∧
      row.Impact_Score = row.anomaly_count * row.unique_systems_affected) ∧
    (calculate_impact_metrics l).Pairwise (fun a b => b.Impact_Score ≤ a.Impact_Score) := by
  by_cases hemp : (reportable_warnings l).isEmpty
  · have hnil : reportable_warnings l = [] := by
      cases hl : reportable_warnings l
      · rfl
      · rw [hl] at hemp; cases hemp
    have hout : calculate_impact_metrics l = [] := by
      rw [calculate_impact_metrics]
      simp [hemp]
    refine ⟨by simp [hout], ?_, by simp [hout], by simp [hout]⟩
    intro p
    rw [hout, hnil]
    simp
  · have hout : calculate_impact_metrics l =
        sortByB (fun a b => decide (b.Impact_Score < a.Impact_Score))
          (impactRows l) := by
      rw [calculate_impact_metrics]
      simp only [hemp, Bool.false_eq_true, if_false]
    have hpermR := sortByB_perm (fun a b => decide (b.Impact_Score < a.Impact_Score))
      (impactRows l)
    have hrowsmap : (impactRows l).map (·.final_problem_id) = impactPids l := by
      rw [impactRows, List.map_map]
      exact List.map_id _
    refine ⟨?_, ?_, ?_, ?_⟩
    · rw [hout]
      refine ((hpermR.map (·.final_problem_id)).nodup_iff).mpr ?_
      rw [hrowsmap, impactPids]
      exact ((sortByB_perm _ _).nodup_iff).mpr
        (nodup_drop_duplicates_first_id _)
    · intro p
      rw [hout]
      rw [(hpermR.map (·.final_problem_id)).mem_iff, hrowsmap]
      constructor
      · intro hp
        have hp2 : p ∈ drop_duplicates_first id
            ((dedupe_reportable_warnings l).map (·.final_problem_id)) := by
          rw [impactPids] at hp
          exact (sortByB_perm _ _).mem_iff.mp hp
        have hp3 := (mem_drop_duplicates_first_id _ p).mp hp2
        exact mem_pid_dedupe.mp hp3
      · intro hp
        have hp2 := mem_pid_dedupe.mpr hp
        have hp3 := (mem_drop_duplicates_first_id
          ((dedupe_reportable_warnings l).map (·.final_problem_id)) p).mpr hp2
        rw [impactPids]
        exact (sortByB_perm _ _).mem_iff.mpr hp3
    · intro row hrow
      rw [hout] at hrow
      have hrow2 : row ∈ impactRows l := hpermR.mem_iff.mp hrow
      rcases List.mem_map.mp hrow2 with ⟨p, hp, hmk⟩
      subst hmk
      exact ⟨rfl, rfl, rfl⟩
    · rw [hout]
      refine sortByB_pairwise ?_ ?_ ?_ _
      · intro a b h
        exact le_of_lt (of_decide_eq_true h)
      · intro a b h
        exact le_of_not_lt (of_decide_eq_false h)
      · intro a b c h1 h2
        exact le_trans h2 h1

/-- Reportable WARNING for problem 1 (impact-tie input, first row). -/
def exV1 : CLog :=
  { Timestamp := 0, Level := "WARNING", Message := "m1", file_name := "a.txt"
    line_number := 1, log := "r1", Generalized_Message := "m1"
    final_anomaly_id := 1, final_problem_id := 1 }

/-- Reportable WARNING for problem 2 (impact-tie input, second row). -/
def exV2 : CLog :=
  { Timestamp := 1, Level := "WARNING", Message := "m2", file_name := "a.txt"
    line_number := 2, log := "r2", Generalized_Message := "m2"
    final_anomaly_id := 2, final_problem_id := 2 }

/-- Counterexample to claim C2 as stated: with one reportable WARNING each
for problems 1 and 2 in the same file, both impact scores are 1, so the
returned rows are not sorted strictly descending by `Impact_Score`. -/
theorem C2_impact_metrics_counterexample :
    (calculate_impact_metrics [exV1, exV2]).map (·.Impact_Score) = [1, 1] ∧
      ¬ (calculate_impact_metrics [exV1, exV2]).Pairwise
        (fun a b => b.Impact_Score < a.Impact_Score) := by
  refine ⟨by decide, ?_⟩
  intro h
  have he : calculate_impact_metrics [exV1, exV2] =
      [impactRow [exV1, exV2] 1, impactRow [exV1, exV2] 2] := by decide
  rw [he] at h
  have h1 := (List.pairwise_cons.mp h).1 _ (List.mem_cons_self _ _)
  exact absurd h1 (by decide)

theorem C2_impact_metrics_amended_witness :
    (calculate_impact_metrics [exV1, exV2]).Pairwise
      (fun a b => b.Impact_Score ≤ a.Impact_Score) :=
  (C2_impact_metrics_amended [exV1, exV2]).2.2.2

theorem mem_known_errors {l : List CLog} {x : CLog} :
    x ∈ known_errors l ↔ x ∈ l ∧ x.Level = "ERROR" ∧ x.final_problem_id ≠ 0 := by
  rw [known_errors, (sortByB_perm _ _).mem_iff]
  simp [List.mem_filter, and_assoc]

theorem mem_potential_causes {l : List CLog} {window : Int} {w e : CLog} :
    e ∈ potential_causes l window w ↔
      e ∈ l ∧ e.Level = "ERROR" ∧ e.final_problem_id ≠ 0 ∧
        w.Timestamp - window ≤ e.Timestamp ∧ e.Timestamp ≤ w.Timestamp := by
  rw [potential_causes, List.mem_filter]
  rw [mem_known_errors]
  simp [and_assoc]

theorem known_errors_pairwise (l : List CLog) :
    (known_errors l).Pairwise (fun a b => a.Timestamp ≤ b.Timestamp) := by
  refine sortByB_pairwise ?_ ?_ ?_ _
  · exact fun a b h => le_of_lt (of_decide_eq_true h)
  · exact fun a b h => le_of_not_lt (of_decide_eq_false h)
  · exact fun a b c h1 h2 => le_trans h1 h2

theorem potential_causes_pairwise (l : List CLog) (window : Int) (w : CLog) :
    (potential_causes l window w).Pairwise (fun a b => a.Timestamp ≤ b.Timestamp) :=
  (known_errors_pairwise l).sublist (List.filter_sublist _)

theorem filterMap_none {f : α → Option β} {l : List α}
    (h : ∀ a ∈ l, f a = none) : l.filterMap f = [] :=
  List.filterMap_eq_nil_iff.mpr h

/-- Claim C3: for every deduplicated novel WARNING, `identify_novel_anomalies`
emits an alert exactly when some classified ERROR lies in the window
`[warning.timestamp − window, warning.timestamp]`; the emitted alert carries
the problem id of an in-window classified ERROR of maximal timestamp; and a
WARNING with no qualifying ERROR contributes nothing. -/
theorem C3_novel_anomalies (l : List CLog) (case_name : String) (window : Int) :
    identify_novel_anomalies l case_name window =
      (novel_warnings l).filterMap (novel_alert_for l window (scenario_id_of case_name)) ∧
    ∀ w ∈ novel_warnings l,
      ((novel_alert_for l window (scenario_id_of case_name) w).isSome ↔
        ∃ e ∈ l, e.Level = "ERROR" ∧ e.final_problem_id ≠ 0 ∧
          w.Timestamp - window ≤ e.Timestamp ∧ e.Timestamp ≤ w.Timestamp) ∧
      ∀ a, novel_alert_for l window (scenario_id_of case_name) w = some a →
        ∃ e ∈ l, e.Level = "ERROR" ∧ e.final_problem_id ≠ 0 ∧
          w.Timestamp - window ≤ e.Timestamp ∧ e.Timestamp ≤ w.Timestamp ∧
          a.problem_id = e.final_problem_id ∧
          ∀ e' ∈ l, e'.Level = "ERROR" → e'.final_problem_id ≠ 0 →
            w.Timestamp - window ≤ e'.Timestamp → e'.Timestamp ≤ w.Timestamp →
            e'.Timestamp ≤ e.Timestamp := by
  constructor
  · rw [identify_novel_anomalies]
    by_cases h1 : (l.filter fun r => r.Level == "WARNING" && r.final_problem_id == 0).isEmpty
    · rw [if_pos h1]
      have : novel_warnings l = [] := by
        rw [novel_warnings, List.isEmpty_iff.mp h1]
        rfl
      rw [this]
      rfl
    · rw [if_neg h1]
      by_cases h2 : (l.filter fun r => r.Level == "ERROR" && r.final_problem_id != 0).isEmpty
      · rw [if_pos h2]
        refine (filterMap_none ?_).symm
        intro w hw
        have hke : known_errors l = [] := by
          rw [known_errors, List.isEmpty_iff.mp h2]
          rfl
        rw [novel_alert_for, potential_causes, hke]
        rfl
      · rw [if_neg h2]
  · intro w _
    constructor
    · constructor
      · intro hsome
        rw [novel_alert_for] at hsome
        cases hlast : (potential_causes l window w).getLast? with
        | none => rw [hlast] at hsome; cases hsome
        | some e =>
          have he := mem_potential_causes.mp (getLast?_mem_list hlast)
          exact ⟨e, he.1, he.2.1, he.2.2.1, he.2.2.2.1, he.2.2.2.2⟩
      · intro ⟨e, he, hlvl, hpid, h1, h2⟩
        have hmem : e ∈ potential_causes l window w :=
          mem_potential_causes.mpr ⟨he, hlvl, hpid, h1, h2⟩
        rw [novel_alert_for]
        cases hlast : (potential_causes l window w).getLast? with
        | none =>
          rw [List.getLast?_eq_none_iff] at hlast
          rw [hlast] at hmem
          cases hmem
        | some e' => rfl
    · intro a ha
      rw [novel_alert_for] at ha
      cases hlast : (potential_causes l window w).getLast? with
      | none => rw [hlast] at ha; cases ha
      | some e =>
        rw [hlast] at ha
        have ha2 : some (⟨scenario_id_of case_name, 0, e.final_problem_id,
            w.file_name, w.line_number, w.log⟩ : NovelAlert) = some a := ha
        have hae : a = (⟨scenario_id_of case_name, 0, e.final_problem_id,
            w.file_name, w.line_number, w.log⟩ : NovelAlert) := (Option.some.inj ha2).symm
        have he := mem_potential_causes.mp (getLast?_mem_list hlast)
        refine ⟨e, he.1, he.2.1, he.2.2.1, he.2.2.2.1, he.2.2.2.2, by rw [hae], ?_⟩
        intro e' he' hlvl' hpid' hw1 hw2
        have hmem' : e' ∈ potential_causes l window w :=
          mem_potential_causes.mpr ⟨he', hlvl', hpid', hw1, hw2⟩
        rcases getLast?_max (potential_causes_pairwise l window w) hlast e' hmem' with
          hle | heq
        · exact hle
        · exact heq ▸ le_refl _

/-- A classified ERROR at timestamp 95, problem 3 (C3 witness input). -/
def exE1 : CLog :=
  { Timestamp := 95, Level := "ERROR", Message := "db down", file_name := "c.txt"
    line_number := 3, log := "raw error", Generalized_Message := "db down"
    final_anomaly_id := 0, final_problem_id := 3 }

/-- An unclassified (novel) WARNING at timestamp 100 (C3 witness input). -/
def exN1 : CLog :=
  { Timestamp := 100, Level := "WARNING", Message := "weird blip", file_name := "d.txt"
    line_number := 4, log := "raw novel", Generalized_Message := "weird blip"
    final_anomaly_id := 0, final_problem_id := 0 }

theorem C3_novel_anomalies_witness :
    (novel_alert_for [exE1, exN1] 10 (scenario_id_of "Case7") exN1).isSome := by
  have h := ((C3_novel_anomalies [exE1, exN1] "Case7" 10).2 exN1 (by decide)).1
  exact h.mpr ⟨exE1, by decide, by decide, by decide, by decide, by decide⟩

theorem head?_mem_list {l : List α} {r : α} (h : l.head? = some r) : r ∈ l := by
  cases l with
  | nil => cases h
  | cons a t =>
    have : r = a := (Option.some.inj (by simpa using h)).symm
    simp [this]

theorem mem_detected_errors {l : List CLog} {x : CLog} :
    x ∈ detected_errors l ↔ x ∈ l ∧ x.Level = "ERROR" ∧ x.final_problem_id ≠ 0 := by
  simp [detected_errors, List.mem_filter, and_assoc]

theorem trigger_error_spec {l : List CLog} {p : Int} {trig : CLog}
    (h : trigger_error l p = some trig) :
    trig ∈ l ∧ trig.Level = "ERROR" ∧ trig.final_problem_id ≠ 0 ∧
      trig.final_problem_id = p ∧
      ∀ e' ∈ l, e'.Level = "ERROR" → e'.final_problem_id = p →
        trig.Timestamp ≤ e'.Timestamp := by
  rw [trigger_error] at h
  have hmem : trig ∈ sortByB (fun a b => decide (a.Timestamp < b.Timestamp))
      ((detected_errors l).filter fun r => r.final_problem_id == p) :=
    head?_mem_list h
  have hmem2 : trig ∈ (detected_errors l).filter fun r => r.final_problem_id == p :=
    (sortByB_perm _ _).mem_iff.mp hmem
  have hpair : (sortByB (fun a b => decide (a.Timestamp < b.Timestamp))
      ((detected_errors l).filter fun r => r.final_problem_id == p)).Pairwise
        (fun a b => a.Timestamp ≤ b.Timestamp) := by
    refine sortByB_pairwise ?_ ?_ ?_ _
    · exact fun a b hx => le_of_lt (of_decide_eq_true hx)
    · exact fun a b hx => le_of_not_lt (of_decide_eq_false hx)
    · exact fun a b c hx hy => le_trans hx hy
  rcases List.mem_filter.mp hmem2 with ⟨hdet, hpid⟩
  rcases mem_detected_errors.mp hdet with ⟨hl, hlvl, hnz⟩
  have hpid' : trig.final_problem_id = p := by simpa using hpid
  refine ⟨hl, hlvl, hnz, hpid', ?_⟩
  intro e' he' hlvl' hpid''
  have hp_ne : p ≠ 0 := hpid' ▸ hnz
  have he'mem : e' ∈ (detected_errors l).filter fun r => r.final_problem_id == p := by
    refine List.mem_filter.mpr ⟨?_, by simpa using hpid''⟩
    exact mem_detected_errors.mpr ⟨he', hlvl', fun h0 => hp_ne (hpid'' ▸ h0)⟩
  have he'sorted : e' ∈ sortByB (fun a b => decide (a.Timestamp < b.Timestamp))
      ((detected_errors l).filter fun r => r.final_problem_id == p) :=
    (sortByB_perm _ _).mem_iff.mpr he'mem
  rcases head?_min hpair h e' he'sorted with hle | heq
  · exact hle
  · exact heq ▸ le_refl _

theorem trigger_error_isSome {l : List CLog} {p : Int}
    (hp : p ∈ unique_problem_ids l) : ∃ trig, trigger_error l p = some trig := by
  rw [unique_problem_ids] at hp
  have hp2 : p ∈ (detected_errors l).map (·.final_problem_id) :=
    (mem_drop_duplicates_first_id _ p).mp hp
  rcases List.mem_map.mp hp2 with ⟨e, he, hpe⟩
  have hmem : e ∈ (detected_errors l).filter fun r => r.final_problem_id == p :=
    List.mem_filter.mpr ⟨he, by simpa using hpe⟩
  have : e ∈ sortByB (fun a b => decide (a.Timestamp < b.Timestamp))
      ((detected_errors l).filter fun r => r.final_problem_id == p) :=
    (sortByB_perm _ _).mem_iff.mpr hmem
  rw [trigger_error]
  cases hh : (sortByB (fun a b => decide (a.Timestamp < b.Timestamp))
      ((detected_errors l).filter fun r => r.final_problem_id == p)).head? with
  | none =>
    cases hl : sortByB (fun a b => decide (a.Timestamp < b.Timestamp))
        ((detected_errors l).filter fun r => r.final_problem_id == p) with
    | nil => rw [hl] at this; cases this
    | cons x xs => rw [hl] at hh; cases hh
  | some trig => exact ⟨trig, rfl⟩

/-- Structure of every alert produced by `generate_predictive_alerts`. -/
theorem mem_generate_predictive_alerts {l : List CLog} {akb : List KBAnomaly}
    {pkb : List KBProblem} {cn : String} {x : PredictiveAlert}
    (hx : x ∈ generate_predictive_alerts l akb pkb cn) :
    ∃ p trig row, p ∈ unique_problem_ids l ∧ trigger_error l p = some trig ∧
      row ∈ akb ∧ row.problem_id = p ∧
      row.anomaly_id ∉ occurred_anomaly_ids l p ∧
      x = mkPrediction (scenario_id_of cn) p (problem_text_for pkb p) trig row := by
  rw [generate_predictive_alerts] at hx
  by_cases hemp : (detected_errors l).isEmpty
  · rw [if_pos hemp] at hx
    cases hx
  · rw [if_neg hemp] at hx
    rcases List.mem_flatMap.mp hx with ⟨p, hp, hbranch⟩
    rw [predictionsFor] at hbranch
    cases htr : trigger_error l p with
    | none => rw [htr] at hbranch; cases hbranch
    | some trig =>
      rw [htr] at hbranch
      rcases List.mem_filterMap.mp hbranch with ⟨row, hrow, hfm⟩
      rcases List.mem_filter.mp hrow with ⟨hrmem, hrpid⟩
      by_cases hocc : row.anomaly_id ∈ occurred_anomaly_ids l p
      · rw [if_pos hocc] at hfm
        cases hfm
      · rw [if_neg hocc] at hfm
        exact ⟨p, trig, row, hp, htr, hrmem, by simpa using hrpid, hocc,
          (Option.some.inj hfm).symm⟩

theorem mem_occurred_anomaly_ids {l : List CLog} {p : Int} {r : CLog}
    (hr : r ∈ l) (hlvl : r.Level = "WARNING") (hpid : r.final_problem_id = p) :
    r.final_anomaly_id ∈ occurred_anomaly_ids l p := by
  have hmem : r ∈ l.filter fun q => q.Level == "WARNING" && q.final_problem_id == p :=
    List.mem_filter.mpr ⟨hr, by simp [hlvl, hpid]⟩
  rcases mem_key_dropDupAux pairKey []
      (l.filter fun q => q.Level == "WARNING" && q.final_problem_id == p) r hmem with
    h1 | ⟨y, hy, hky⟩
  · cases h1
  · have haid : y.final_anomaly_id = r.final_anomaly_id :=
      (Prod.ext_iff.mp hky).1
    rw [occurred_anomaly_ids]
    refine (mem_drop_duplicates_first_id _ _).mpr ?_
    exact List.mem_map.mpr ⟨y, hy, haid⟩

/-- Claim C4: every predictive alert names an anomaly id absent from the
WARNING records classified to its trigger problem, its trigger details are
those of an earliest-timestamp classified ERROR of that problem, and with no
classified ERROR at all the result is empty. -/
theorem C4_predictive_alerts (l : List CLog) (akb : List KBAnomaly)
    (pkb : List KBProblem) (case_name : String) :
    (∀ a ∈ generate_predictive_alerts l akb pkb case_name,
      (∀ r ∈ l, r.Level = "WARNING" → r.final_problem_id = a.trigger_problem_id →
        r.final_anomaly_id ≠ a.predicted_anomaly_id) ∧
      ∃ e ∈ l, e.Level = "ERROR" ∧ e.final_problem_id = a.trigger_problem_id ∧
        a.trigger_time = e.Timestamp ∧ a.trigger_log = e.log ∧
        ∀ e' ∈ l, e'.Level = "ERROR" → e'.final_problem_id = a.trigger_problem_id →
          e.Timestamp ≤ e'.Timestamp) ∧
    ((∀ r ∈ l, r.Level = "ERROR" → r.final_problem_id = 0) →
      generate_predictive_alerts l akb pkb case_name = []) := by
  constructor
  · intro a ha
    rcases mem_generate_predictive_alerts ha with
      ⟨p, trig, row, hp, htr, hrow, hrpid, hocc, hax⟩
    have htrig := trigger_error_spec htr
    have htp : a.trigger_problem_id = p := by rw [hax]; rfl
    have hpred : a.predicted_anomaly_id = row.anomaly_id := by rw [hax]; rfl
    constructor
    · intro r hr hlvl hpid heq
      apply hocc
      rw [← hpred, ← heq]
      exact mem_occurred_anomaly_ids hr hlvl (htp ▸ hpid)
    · refine ⟨trig, htrig.1, htrig.2.1, htp ▸ htrig.2.2.2.1, ?_, ?_, ?_⟩
      · rw [hax]; rfl
      · rw [hax]; rfl
      · intro e' he' hlvl' hpid'
        exact htrig.2.2.2.2 e' he' hlvl' (htp ▸ hpid')
  · intro hnone
    rw [generate_predictive_alerts, if_pos ?_]
    rw [List.isEmpty_iff, detected_errors, List.filter_eq_nil_iff]
    intro r hr
    simp only [Bool.and_eq_true, beq_iff_eq, bne_iff_ne, not_and, ne_eq]
    intro hlvl
    simpa using hnone r hr hlvl

theorem C4_predictive_alerts_witness :
    generate_predictive_alerts [exW1, exW2] [] [] "Case1" = [] :=
  (C4_predictive_alerts [exW1, exW2] [] [] "Case1").2 (by decide)

theorem countP_flatMap_single [DecidableEq α] (f : α → List β) (q : β → Bool) (p : α) :
    ∀ (pids : List α), pids.Nodup → (∀ p' ∈ pids, p' ≠ p → (f p').countP q = 0) →
      (pids.flatMap f).countP q = if p ∈ pids then (f p).countP q else 0 := by
  intro pids
  induction pids with
  | nil => simp
  | cons b bs ih =>
    intro hnd h0
    rw [List.flatMap_cons, List.countP_append]
    rcases List.nodup_cons.mp hnd with ⟨hb, hnd'⟩
    by_cases hbp : b = p
    · subst hbp
      have hz : (bs.flatMap f).countP q = 0 := by
        rw [ih hnd' (fun p' hp' hne => h0 p' (List.mem_cons_of_mem _ hp') hne),
          if_neg hb]
      rw [hz, if_pos (List.mem_cons_self _ _)]
      exact Nat.add_zero _
    · have hmem : (p ∈ b :: bs) ↔ (p ∈ bs) := by
        constructor
        · intro h
          rcases List.mem_cons.mp h with h2 | h2
          · exact absurd h2.symm hbp
          · exact h2
        · exact fun h => List.mem_cons_of_mem _ h
      rw [h0 b (List.mem_cons_self _ _) hbp,
        ih hnd' (fun p' hp' hne => h0 p' (List.mem_cons_of_mem _ hp') hne)]
      by_cases hp : p ∈ bs <;> simp [hp, hmem]

theorem predictionsFor_trigger {l : List CLog} {akb : List KBAnomaly}
    {pkb : List KBProblem} {cn : String} {p : Int} {x : PredictiveAlert}
    (hx : x ∈ predictionsFor l akb pkb cn p) : x.trigger_problem_id = p := by
  rw [predictionsFor] at hx
  cases htr : trigger_error l p with
  | none => rw [htr] at hx; cases hx
  | some trig =>
    rw [htr] at hx
    rcases List.mem_filterMap.mp hx with ⟨row, _, hfm⟩
    by_cases hocc : row.anomaly_id ∈ occurred_anomaly_ids l p
    · rw [if_pos hocc] at hfm; cases hfm
    · rw [if_neg hocc] at hfm
      rw [← Option.some.inj hfm]
      rfl

theorem countP_predictionsFor (l : List CLog) (akb : List KBAnomaly)
    (pkb : List KBProblem) (cn : String) (p a : Int)
    (hp : p ∈ unique_problem_ids l) :
    (predictionsFor l akb pkb cn p).countP
        (fun x => x.trigger_problem_id == p && x.predicted_anomaly_id == a) =
      if a ∈ occurred_anomaly_ids l p then 0
      else akb.countP (fun row => row.problem_id == p && row.anomaly_id == a) := by
  rcases trigger_error_isSome hp with ⟨trig, htr⟩
  rw [predictionsFor, htr, List.countP_filterMap, List.countP_filter]
  by_cases hocc : a ∈ occurred_anomaly_ids l p
  · rw [if_pos hocc]
    rw [List.countP_eq_zero]
    intro row _
    by_cases hro : row.anomaly_id ∈ occurred_anomaly_ids l p
    · simp [hro]
    · have hne : ¬ (row.anomaly_id = a) := fun he => hro (he ▸ hocc)
      simp [hro, mkPrediction, hne]
  · rw [if_neg hocc]
    apply List.countP_congr
    intro row _
    by_cases hro : row.anomaly_id ∈ occurred_anomaly_ids l p
    · have hne : ¬ (row.anomaly_id = a) := fun he => hocc (he ▸ hro)
      simp [hro, hne]
    · simp [hro, mkPrediction, and_comm]

/-- Claim C10: `generate_predictive_alerts` emits one alert per anomaly-table
row whose anomaly id has not occurred for the trigger problem, so the number
of alerts for a `(problem, anomaly)` pair equals the number of anomaly-table
rows with that pair (duplicated rows yield that many alerts), and alerts
agreeing on trigger problem, predicted anomaly id and predicted text are
identical. -/
theorem C10_duplicate_kb_rows (l : List CLog) (akb : List KBAnomaly)
    (pkb : List KBProblem) (case_name : String) (p a : Int) :
    ((generate_predictive_alerts l akb pkb case_name).countP
        (fun x => x.trigger_problem_id == p && x.predicted_anomaly_id == a) =
      if p ∈ unique_problem_ids l ∧ a ∉ occurred_anomaly_ids l p then
        akb.countP (fun row => row.problem_id == p && row.anomaly_id == a)
      else 0) ∧
    ∀ x ∈ generate_predictive_alerts l akb pkb case_name,
      ∀ y ∈ generate_predictive_alerts l akb pkb case_name,
        x.trigger_problem_id = y.trigger_problem_id →
        x.predicted_anomaly_id = y.predicted_anomaly_id →
        x.predicted_text = y.predicted_text → x = y := by
  constructor
  · by_cases hemp : (detected_errors l).isEmpty
    · have hu : unique_problem_ids l = [] := by
        rw [unique_problem_ids, List.isEmpty_iff.mp hemp]
        rfl
      rw [generate_predictive_alerts, if_pos hemp, hu]
      simp
    · rw [generate_predictive_alerts, if_neg hemp]
      have hnd : (unique_problem_ids l).Nodup := nodup_drop_duplicates_first_id _
      have h0 : ∀ p' ∈ unique_problem_ids l, p' ≠ p →
          ((predictionsFor l akb pkb case_name p').countP
            (fun x => x.trigger_problem_id == p && x.predicted_anomaly_id == a)) = 0 := by
        intro p' _ hne
        rw [List.countP_eq_zero]
        intro x hx
        have := predictionsFor_trigger hx
        simp [this, hne]
      rw [countP_flatMap_single _ _ _ _ hnd h0]
      by_cases hp : p ∈ unique_problem_ids l
      · rw [if_pos hp, countP_predictionsFor l akb pkb case_name p a hp]
        by_cases hocc : a ∈ occurred_anomaly_ids l p
        · rw [if_pos hocc, if_neg (fun h => h.2 hocc)]
        · rw [if_neg hocc, if_pos ⟨hp, hocc⟩]
      · rw [if_neg hp, if_neg (fun h => hp h.1)]
  · intro x hx y hy htrig hpred htext
    rcases mem_generate_predictive_alerts hx with
      ⟨p1, trig1, row1, _, htr1, _, _, _, hx1⟩
    rcases mem_generate_predictive_alerts hy with
      ⟨p2, trig2, row2, _, htr2, _, _, _, hy1⟩
    have hp12 : p1 = p2 := by
      have e1 : x.trigger_problem_id = p1 := by rw [hx1]; rfl
      have e2 : y.trigger_problem_id = p2 := by rw [hy1]; rfl
      rw [← e1, ← e2, htrig]
    subst hp12
    have htrigeq : trig1 = trig2 := by
      rw [htr1] at htr2
      exact Option.some.inj htr2
    subst htrigeq
    have haid : row1.anomaly_id = row2.anomaly_id := by
      have e1 : x.predicted_anomaly_id = row1.anomaly_id := by rw [hx1]; rfl
      have e2 : y.predicted_anomaly_id = row2.anomaly_id := by rw [hy1]; rfl
      rw [← e1, ← e2, hpred]
    have htxt : row1.Anomaly_Text = row2.Anomaly_Text := by
      have e1 : x.predicted_text = row1.Anomaly_Text := by rw [hx1]; rfl
      have e2 : y.predicted_text = row2.Anomaly_Text := by rw [hy1]; rfl
      rw [← e1, ← e2, htext]
    rw [hx1, hy1]
    simp [mkPrediction, haid, htxt]

/-- A knowledge-base anomaly row mapping anomaly 9 to problem 3. -/
def exKbRow : KBAnomaly :=
  { anomaly_id := 9, problem_id := 3, Generalized_Anomaly := "spike seen"
    Anomaly_Text := "Spike seen" }

theorem C10_duplicate_kb_rows_witness :
    (generate_predictive_alerts [exE1] [exKbRow, exKbRow] [] "Case2").countP
      (fun x => x.trigger_problem_id == 3 && x.predicted_anomaly_id == 9) = 2 := by
  have h := (C10_duplicate_kb_rows [exE1] [exKbRow, exKbRow] [] "Case2" 3 9).1
  rw [h, if_pos ⟨by decide, by decide⟩]
  decide

/-- Claim C9: `load_knowledge_base` raises `FileNotFoundError` exactly for a
missing path; for an existing path it raises the unsupported-format
`ValueError` exactly when the lowercased extension is outside
`{.csv, .xlsx, .xls}`; and otherwise it returns the table pair raising
neither error. -/
theorem C9_load_knowledge_base (fs : CatalogFS) (kb_path : String) :
    (load_knowledge_base fs kb_path = Except.error LoadErr.fileNotFound ↔
      fs.pathExists kb_path = false) ∧
    (load_knowledge_base fs kb_path = Except.error LoadErr.unsupportedFormat ↔
      fs.pathExists kb_path = true ∧
        strLower (splitextExt kb_path) ∉ ([".csv", ".xlsx", ".xls"] : List String)) ∧
    (fs.pathExists kb_path = true →
      strLower (splitextExt kb_path) ∈ ([".csv", ".xlsx", ".xls"] : List String) →
      load_knowledge_base fs kb_path =
        Except.ok (anomalies_table (fs.rows kb_path), problems_table (fs.rows kb_path))) := by
  by_cases hex : fs.pathExists kb_path
  · by_cases hfmt : (strLower (splitextExt kb_path) == ".csv" ||
        strLower (splitextExt kb_path) == ".xlsx" ||
        strLower (splitextExt kb_path) == ".xls") = true
    · have hload : load_knowledge_base fs kb_path =
          Except.ok (anomalies_table (fs.rows kb_path), problems_table (fs.rows kb_path)) := by
        rw [load_knowledge_base, if_pos hex, if_pos hfmt]
      refine ⟨?_, ?_, fun _ _ => hload⟩
      · rw [hload]
        simp [hex]
      · rw [hload]
        constructor
        · intro h; cases h
        · intro ⟨_, hmem⟩
          exfalso
          apply hmem
          simp only [Bool.or_eq_true, beq_iff_eq] at hfmt
          rcases hfmt with (h | h) | h <;> simp [h]
    · have hload : load_knowledge_base fs kb_path =
          Except.error LoadErr.unsupportedFormat := by
        rw [load_knowledge_base, if_pos hex, if_neg hfmt]
      refine ⟨?_, ?_, ?_⟩
      · rw [hload]
        simp [hex]
      · rw [hload]
        simp only [true_iff]
        refine ⟨hex, ?_⟩
        intro hmem
        apply hfmt
        simp only [Bool.or_eq_true, beq_iff_eq]
        simp only [List.mem_cons, List.not_mem_nil, or_false] at hmem
        rcases hmem with h | h | h
        · exact Or.inl (Or.inl h)
        · exact Or.inl (Or.inr h)
        · exact Or.inr h
      · intro _ hmem
        exfalso
        apply hfmt
        simp only [Bool.or_eq_true, beq_iff_eq]
        simp only [List.mem_cons, List.not_mem_nil, or_false] at hmem
        rcases hmem with h | h | h
        · exact Or.inl (Or.inl h)
        · exact Or.inl (Or.inr h)
        · exact Or.inr h
  · have hload : load_knowledge_base fs kb_path = Except.error LoadErr.fileNotFound := by
      rw [load_knowledge_base, if_neg hex]
    have hex' : fs.pathExists kb_path = false := by
      cases h : fs.pathExists kb_path
      · rfl
      · exact absurd h hex
    refine ⟨by rw [hload]; simp [hex'], ?_, ?_⟩
    · rw [hload]
      constructor
      · intro h; cases h
      · intro ⟨h1, _⟩
        rw [hex'] at h1
        cases h1
    · intro h1
      rw [hex'] at h1
      cases h1

/-- A one-row catalog file system exposing `kb.csv` (C9 witness input). -/
def exFS : CatalogFS :=
  { pathExists := fun p => p == "kb.csv" || p == "kb.TXT"
    rows := fun _ => [{ anomaly_id := 1, Anomaly_Text := "Warn text"
                        problem_id := 10, Problem_Text := "Problem text" }] }

theorem C9_load_knowledge_base_witness :
    load_knowledge_base exFS "kb.csv" =
        Except.ok (anomalies_table (exFS.rows "kb.csv"), problems_table (exFS.rows "kb.csv")) ∧
      load_knowledge_base exFS "missing.csv" = Except.error LoadErr.fileNotFound ∧
      load_knowledge_base exFS "kb.TXT" = Except.error LoadErr.unsupportedFormat := by
  refine ⟨?_, ?_, ?_⟩
  · exact (C9_load_knowledge_base exFS "kb.csv").2.2 (by decide) (by decide)
  · exact (C9_load_knowledge_base exFS "missing.csv").1.mpr (by decide)
  · exact ((C9_load_knowledge_base exFS "kb.TXT").2.1).mpr ⟨by decide, by decide⟩

/-- Claim C7 (amended): a trimmed line is skipped exactly when it is empty,
contains the substring `' INFO '` anywhere (not only as its level field), or
its parsed level is neither WARNING nor ERROR; a line is retained as a record
exactly when none of these hold and its captured timestamp parses.  (The
unamended claim makes skipping depend on the line's level being INFO; the
source tests substring containment, so a WARNING/ERROR line merely mentioning
`' INFO '` is also skipped.) -/
theorem C7_line_retention_amended (fname : String) (idx : Nat) (line : String) :
    ((line_record fname idx line).isSome ↔
      (pyStrip line ≠ "" ∧ containsSeq infoMarker (pyStrip line).data = false ∧
        ((parse_log_line (pyStrip line)).level = "WARNING" ∨
          (parse_log_line (pyStrip line)).level = "ERROR"))) ∧
    ((line_final fname idx line).isSome ↔
      ((line_record fname idx line).isSome ∧
        ∃ u, (parse_log_line (pyStrip line)).timestamp = some u ∧
          (parse_timestamp u.data).isSome)) := by
  by_cases h1 : (pyStrip line == "" || containsSeq infoMarker (pyStrip line).data) = true
  · have hr : line_record fname idx line = none := by
      rw [line_record, if_pos h1]
    constructor
    · rw [hr]
      simp only [Option.isSome_none, Bool.false_eq_true, false_iff, not_and]
      intro hne hinfo
      rcases Bool.or_eq_true _ _ |>.mp h1 with h | h
      · exact absurd (by simpa using h) hne
      · rw [h] at hinfo
        cases hinfo
    · rw [line_final, hr]
      simp [Option.isSome_none]
  · by_cases h2 : ((parse_log_line (pyStrip line)).level == "WARNING" ||
        (parse_log_line (pyStrip line)).level == "ERROR") = true
    · have hr : line_record fname idx line =
          some ((parse_log_line (pyStrip line)).timestamp,
            { Timestamp := 0, Level := (parse_log_line (pyStrip line)).level
              Message := (parse_log_line (pyStrip line)).message
              file_name := fname, line_number := idx + 1, log := pyStrip line
              Generalized_Message := "" }) := by
        rw [line_record, if_neg h1, if_pos h2]
      have hcond : pyStrip line ≠ "" ∧
          containsSeq infoMarker (pyStrip line).data = false ∧
          ((parse_log_line (pyStrip line)).level = "WARNING" ∨
            (parse_log_line (pyStrip line)).level = "ERROR") := by
        refine ⟨?_, ?_, ?_⟩
        · intro he
          exact h1 (by simp [he])
        · cases hc : containsSeq infoMarker (pyStrip line).data
          · rfl
          · exact absurd (by simp [hc]) h1
        · rcases Bool.or_eq_true _ _ |>.mp h2 with h | h
          · exact Or.inl (by simpa using h)
          · exact Or.inr (by simpa using h)
      constructor
      · rw [hr]
        simp only [Option.isSome_some, true_iff]
        exact hcond
      · rw [line_final, hr]
        cases hts : (parse_log_line (pyStrip line)).timestamp with
        | none =>
          simp only [Option.isSome_none, Bool.false_eq_true, false_iff, not_and]
          intro _
          rintro ⟨u, hu, -⟩
          cases hu
        | some u =>
          simp only [Option.isSome_some, true_and, Option.isSome_map]
          constructor
          · intro hps
            exact ⟨u, rfl, by simpa using hps⟩
          · rintro ⟨u', hu', hps⟩
            have : u' = u := Option.some.inj hu'.symm
            subst this
            simpa using hps
    · have hr : line_record fname idx line = none := by
        rw [line_record, if_neg h1, if_neg h2]
      constructor
      · rw [hr]
        simp only [Option.isSome_none, Bool.false_eq_true, false_iff, not_and]
        intro _ _ hlvl
        apply h2
        rcases hlvl with h | h <;> simp [h]
      · rw [line_final, hr]
        simp [Option.isSome_none]

/-- A WARNING line that merely mentions `' INFO '` in its message. -/
def exInfoLine : String := "2025-01-01T00:00:00 WARNING Core: INFO leak found"

/-- Counterexample to claim C7 as stated: this trimmed, non-empty line parses
with level WARNING and a valid timestamp, yet the collection loop skips it
because it contains the substring `' INFO '`. -/
theorem C7_line_retention_counterexample :
    line_record "a.txt" 0 exInfoLine = none ∧
      pyStrip exInfoLine = exInfoLine ∧
      (parse_log_line exInfoLine).level = "WARNING" ∧
      (parse_log_line exInfoLine).timestamp = some "2025-01-01T00:00:00" ∧
      (parse_timestamp "2025-01-01T00:00:00".data).isSome = true := by
  refine ⟨by decide, by decide, by decide, by decide, by decide⟩

theorem C7_line_retention_witness :
    (line_final "f.txt" 0 "2024-01-15T10:30:45 ERROR Database: Connection timeout").isSome := by
  have h := (C7_line_retention_amended "f.txt" 0
    "2024-01-15T10:30:45 ERROR Database: Connection timeout").2
  exact h.mpr ⟨by decide, "2024-01-15T10:30:45", by decide, by decide⟩

/-! ## Properties of the text generalizer (claims C5 and C6) -/

theorem char_le_iff_toNat (a b : Char) : a ≤ b ↔ a.toNat ≤ b.toNat := by rfl

theorem toNat_char_ofNat {m : Nat} (h : m < 55296) : (Char.ofNat m).toNat = m := by
  have hv : m.isValidChar := Or.inl h
  rw [Char.ofNat, dif_pos hv]
  simp [Char.ofNatAux, Char.toNat, UInt32.toNat, UInt32.ofNat']

theorem asciiUpper_asciiLower (c : Char) : asciiUpperAlpha (asciiLower c) = false := by
  rw [asciiLower]
  by_cases h : 'A' ≤ c ∧ c ≤ 'Z'
  · rw [if_pos h]
    have h1 : 65 ≤ c.toNat := (char_le_iff_toNat 'A' c).mp h.1
    have h2 : c.toNat ≤ 90 := (char_le_iff_toNat c 'Z').mp h.2
    have hlt : c.toNat + 32 < 55296 := by omega
    have hv : (Char.ofNat (c.toNat + 32)).toNat = c.toNat + 32 := toNat_char_ofNat hlt
    rw [asciiUpperAlpha]
    have : ¬ (Char.ofNat (c.toNat + 32) ≤ 'Z') := by
      rw [char_le_iff_toNat, hv]
      show ¬ (c.toNat + 32 ≤ 90)
      omega
    simp [this]
  · rw [if_neg h, asciiUpperAlpha]
    by_cases h1 : 'A' ≤ c
    · by_cases h2 : c ≤ 'Z'
      · exact absurd ⟨h1, h2⟩ h
      · simp [h2]
    · simp [h1]

theorem asciiLower_fix {c : Char} (h : asciiUpperAlpha c = false) :
    asciiLower c = c := by
  rw [asciiLower, if_neg]
  intro ⟨h1, h2⟩
  rw [asciiUpperAlpha] at h
  simp [h1, h2] at h

theorem map_asciiLower_fix {l : List Char}
    (h : ∀ c ∈ l, asciiUpperAlpha c = false) : l.map asciiLower = l := by
  induction l with
  | nil => rfl
  | cons c rest ih =>
    rw [List.map_cons, asciiLower_fix (h c (List.mem_cons_self _ _)),
      ih (fun d hd => h d (List.mem_cons_of_mem _ hd))]

/-- Characters of the IPv4 substitution output come from the input or the
replacement token. -/
theorem mem_subIpS : ∀ (st : Option Nat) (pw : Bool) (l : List Char) (c : Char),
    c ∈ subIpS st pw l → c ∈ l ∨ c ∈ ipToken
  | _, _, [], c, h => by simp [subIpS] at h
  | some 0, pw, x :: rest, c, h => by
    rcases mem_subIpS none true rest c h with h1 | h1
    · exact Or.inl (List.mem_cons_of_mem _ h1)
    · exact Or.inr h1
  | some (n + 1), pw, x :: rest, c, h => by
    rcases mem_subIpS (some n) true rest c h with h1 | h1
    · exact Or.inl (List.mem_cons_of_mem _ h1)
    · exact Or.inr h1
  | none, pw, x :: rest, c, h => by
    rw [subIpS] at h
    by_cases hd : pyDigit x
    · rw [if_pos hd] at h
      by_cases hpw : pw
      · rw [if_pos hpw] at h
        rcases List.mem_cons.mp h with rfl | h1
        · exact Or.inl (List.mem_cons_self _ _)
        · rcases mem_subIpS none true rest c h1 with h2 | h2
          · exact Or.inl (List.mem_cons_of_mem _ h2)
          · exact Or.inr h2
      · rw [if_neg hpw] at h
        cases hm : ipSkip (x :: rest) with
        | some n =>
          rw [hm] at h
          rcases List.mem_append.mp h with h1 | h1
          · exact Or.inr h1
          · rcases mem_subIpS (some n) true rest c h1 with h2 | h2
            · exact Or.inl (List.mem_cons_of_mem _ h2)
            · exact Or.inr h2
        | none =>
          rw [hm] at h
          rcases List.mem_cons.mp h with rfl | h1
          · exact Or.inl (List.mem_cons_self _ _)
          · rcases mem_subIpS none true rest c h1 with h2 | h2
            · exact Or.inl (List.mem_cons_of_mem _ h2)
            · exact Or.inr h2
    · rw [if_neg hd] at h
      rcases List.mem_cons.mp h with rfl | h1
      · exact Or.inl (List.mem_cons_self _ _)
      · rcases mem_subIpS none (pyWord x) rest c h1 with h2 | h2
        · exact Or.inl (List.mem_cons_of_mem _ h2)
        · exact Or.inr h2

/-- Characters of the hex substitution output come from the input or the
replacement token. -/
theorem mem_subHexS : ∀ (b : Bool) (l : List Char), ∀ c ∈ subHexS b l, c ∈ l ∨ c ∈ hexToken := by
  intro b l
  induction b, l using subHexS.induct with
  | case1 => intro c h; simp [subHexS] at h
  | case2 x rest hx ih =>
    intro d h
    rw [subHexS, if_pos hx] at h
    rcases ih d h with h1 | h1
    · exact Or.inl (List.mem_cons_of_mem _ h1)
    · exact Or.inr h1
  | case3 x rest hx ih =>
    intro d h
    rw [subHexS, if_neg hx] at h
    rcases List.mem_cons.mp h with rfl | h1
    · exact Or.inl (List.mem_cons_self _ _)
    · rcases ih d h1 with h2 | h2
      · exact Or.inl (List.mem_cons_of_mem _ h2)
      · exact Or.inr h2
  | case4 y rest hy ih =>
    intro d h
    rw [subHexS, if_pos hy] at h
    rcases List.mem_append.mp h with h1 | h1
    · exact Or.inr h1
    · rcases ih d h1 with h2 | h2
      · exact Or.inl (by simp [h2])
      · exact Or.inr h2
  | case5 y rest hy ih =>
    intro d h
    rw [subHexS, if_neg hy] at h
    rcases List.mem_cons.mp h with rfl | h1
    · exact Or.inl (List.mem_cons_self _ _)
    · rcases ih d h1 with h2 | h2
      · exact Or.inl (List.mem_cons_of_mem _ h2)
      · exact Or.inr h2
  | case6 x rest hne ih =>
    intro d h
    rw [subHexS] at h
    · rcases List.mem_cons.mp h with rfl | h1
      · exact Or.inl (List.mem_cons_self _ _)
      · rcases ih d h1 with h2 | h2
        · exact Or.inl (List.mem_cons_of_mem _ h2)
        · exact Or.inr h2
    · exact hne
/-- Characters of the path substitution output come from the input or the
replacement token. -/
theorem mem_subPathS : ∀ (l : List Char) (b : Bool), ∀ c ∈ subPathS b l, c ∈ l ∨ c ∈ pathToken := by
  intro l
  induction l with
  | nil => intro b c h; simp [subPathS] at h
  | cons x rest ih =>
    intro b c h
    cases b with
    | true =>
      rw [subPathS] at h
      by_cases hx : x = ' '
      · rw [if_pos hx] at h
        rcases List.mem_cons.mp h with rfl | h1
        · exact Or.inl (hx ▸ List.mem_cons_self _ _)
        · rcases ih false c h1 with h2 | h2
          · exact Or.inl (List.mem_cons_of_mem _ h2)
          · exact Or.inr h2
      · rw [if_neg hx] at h
        rcases ih true c h with h2 | h2
        · exact Or.inl (List.mem_cons_of_mem _ h2)
        · exact Or.inr h2
    | false =>
      rw [subPathS] at h
      by_cases hx : x = '/'
      · rw [if_pos hx] at h
        rcases List.mem_append.mp h with h1 | h1
        · exact Or.inr h1
        · rcases ih true c h1 with h2 | h2
          · exact Or.inl (List.mem_cons_of_mem _ h2)
          · exact Or.inr h2
      · rw [if_neg hx] at h
        rcases List.mem_cons.mp h with rfl | h1
        · exact Or.inl (List.mem_cons_self _ _)
        · rcases ih false c h1 with h2 | h2
          · exact Or.inl (List.mem_cons_of_mem _ h2)
          · exact Or.inr h2

/-- Characters of the number substitution output come from the input, the
replacement token, or the pending digit accumulator. -/
theorem mem_subNumS : ∀ (l : List Char) (st : Option (List Char)) (pw : Bool),
    ∀ c ∈ subNumS st pw l,
      c ∈ l ∨ c ∈ numberToken ∨ ∃ acc, st = some acc ∧ c ∈ acc := by
  intro l
  induction l with
  | nil =>
    intro st pw c h
    cases st with
    | none => simp [subNumS] at h
    | some acc =>
      rw [subNumS] at h
      exact Or.inr (Or.inl h)
  | cons x rest ih =>
    intro st pw c h
    cases st with
    | none =>
      rw [subNumS] at h
      by_cases hd : pyDigit x
      · rw [if_pos hd] at h
        by_cases hpw : pw
        · rw [if_pos hpw] at h
          rcases List.mem_cons.mp h with rfl | h1
          · exact Or.inl (List.mem_cons_self _ _)
          · rcases ih none true c h1 with h2 | h2 | ⟨acc, hacc, _⟩
            · exact Or.inl (List.mem_cons_of_mem _ h2)
            · exact Or.inr (Or.inl h2)
            · cases hacc
        · rw [if_neg hpw] at h
          rcases ih (some [x]) true c h with h2 | h2 | ⟨acc, hacc, hc⟩
          · exact Or.inl (List.mem_cons_of_mem _ h2)
          · exact Or.inr (Or.inl h2)
          · have : acc = [x] := Option.some.inj hacc.symm
            subst this
            exact Or.inl (List.mem_cons.mpr (Or.inl (by simpa using hc)))
      · rw [if_neg hd] at h
        rcases List.mem_cons.mp h with rfl | h1
        · exact Or.inl (List.mem_cons_self _ _)
        · rcases ih none (pyWord x) c h1 with h2 | h2 | ⟨acc, hacc, _⟩
          · exact Or.inl (List.mem_cons_of_mem _ h2)
          · exact Or.inr (Or.inl h2)
          · cases hacc
    | some acc =>
      rw [subNumS] at h
      by_cases hd : pyDigit x
      · rw [if_pos hd] at h
        rcases ih (some (acc ++ [x])) true c h with h2 | h2 | ⟨acc', hacc, hc⟩
        · exact Or.inl (List.mem_cons_of_mem _ h2)
        · exact Or.inr (Or.inl h2)
        · have : acc' = acc ++ [x] := Option.some.inj hacc.symm
          subst this
          rcases List.mem_append.mp hc with h3 | h3
          · exact Or.inr (Or.inr ⟨acc, rfl, h3⟩)
          · exact Or.inl (List.mem_cons.mpr (Or.inl (by simpa using h3)))
      · rw [if_neg hd] at h
        by_cases hw : pyWord x
        · rw [if_pos hw] at h
          rcases List.mem_append.mp h with h1 | h1
          · exact Or.inr (Or.inr ⟨acc, rfl, h1⟩)
          · rcases List.mem_cons.mp h1 with rfl | h2
            · exact Or.inl (List.mem_cons_self _ _)
            · rcases ih none true c h2 with h3 | h3 | ⟨acc', hacc, _⟩
              · exact Or.inl (List.mem_cons_of_mem _ h3)
              · exact Or.inr (Or.inl h3)
              · cases hacc
        · rw [if_neg hw] at h
          rcases List.mem_append.mp h with h1 | h1
          · exact Or.inr (Or.inl h1)
          · rcases List.mem_cons.mp h1 with rfl | h2
            · exact Or.inl (List.mem_cons_self _ _)
            · rcases ih none false c h2 with h3 | h3 | ⟨acc', hacc, _⟩
              · exact Or.inl (List.mem_cons_of_mem _ h3)
              · exact Or.inr (Or.inl h3)
              · cases hacc

/-- Characters of the whitespace-collapse output: a space, or a non-space
input character. -/
theorem mem_collapseS : ∀ (l : List Char) (b : Bool), ∀ c ∈ collapseS b l,
    c = ' ' ∨ (c ∈ l ∧ pySpace c = false) := by
  intro l
  induction l with
  | nil => intro b c h; simp [collapseS] at h
  | cons x rest ih =>
    intro b c h
    cases b with
    | true =>
      rw [collapseS] at h
      by_cases hx : pySpace x
      · rw [if_pos hx] at h
        rcases ih true c h with h1 | ⟨h1, h2⟩
        · exact Or.inl h1
        · exact Or.inr ⟨List.mem_cons_of_mem _ h1, h2⟩
      · rw [if_neg hx] at h
        rcases List.mem_cons.mp h with rfl | h1
        · exact Or.inr ⟨List.mem_cons_self _ _, by simpa using hx⟩
        · rcases ih false c h1 with h2 | ⟨h2, h3⟩
          · exact Or.inl h2
          · exact Or.inr ⟨List.mem_cons_of_mem _ h2, h3⟩
    | false =>
      rw [collapseS] at h
      by_cases hx : pySpace x
      · rw [if_pos hx] at h
        rcases List.mem_cons.mp h with rfl | h1
        · exact Or.inl rfl
        · rcases ih true c h1 with h2 | ⟨h2, h3⟩
          · exact Or.inl h2
          · exact Or.inr ⟨List.mem_cons_of_mem _ h2, h3⟩
      · rw [if_neg hx] at h
        rcases List.mem_cons.mp h with rfl | h1
        · exact Or.inr ⟨List.mem_cons_self _ _, by simpa using hx⟩
        · rcases ih false c h1 with h2 | ⟨h2, h3⟩
          · exact Or.inl h2
          · exact Or.inr ⟨List.mem_cons_of_mem _ h2, h3⟩

/-- `rstripWs` splits off a whitespace suffix. -/
theorem rstrip_decomp : ∀ (l : List Char),
    ∃ s, l = rstripWs l ++ s ∧ ∀ c ∈ s, pySpace c = true := by
  intro l
  induction l with
  | nil => exact ⟨[], rfl, by simp⟩
  | cons x rest ih =>
    rcases ih with ⟨s, hs, hsp⟩
    cases hr : rstripWs rest with
    | nil =>
      rw [hr] at hs
      by_cases hx : pySpace x
      · refine ⟨x :: rest, ?_, ?_⟩
        · rw [rstripWs, hr, if_pos hx]
          rfl
        · intro c hc
          rcases List.mem_cons.mp hc with rfl | hc2
          · exact hx
          · rw [show rest = s from hs] at hc2
            exact hsp c hc2
      · refine ⟨rest, ?_, ?_⟩
        · rw [rstripWs, hr, if_neg hx]
          rfl
        · intro c hc
          rw [show rest = s from hs] at hc
          exact hsp c hc
    | cons d ds =>
      refine ⟨s, ?_, hsp⟩
      rw [rstripWs, hr]
      rw [hr] at hs
      rw [List.cons_append, ← hs]

theorem mem_rstrip {l : List Char} {c : Char} (h : c ∈ rstripWs l) : c ∈ l := by
  rcases rstrip_decomp l with ⟨s, hs, -⟩
  rw [hs]
  exact List.mem_append.mpr (Or.inl h)

theorem mem_lstrip {l : List Char} {c : Char} (h : c ∈ lstripWs l) : c ∈ l :=
  (List.dropWhile_sublist _).subset h

theorem mem_stripWs {l : List Char} {c : Char} (h : c ∈ stripWs l) : c ∈ l :=
  mem_rstrip (mem_lstrip h)

/-- Characters of a punct-to-space pass are word characters or whitespace. -/
theorem mem_map_punct {l : List Char} {c : Char} (h : c ∈ l.map punctToSpace) :
    (pyWord c || pySpace c) = true := by
  rcases List.mem_map.mp h with ⟨d, -, hd⟩
  rw [← hd, punctToSpace]
  by_cases hw : (pyWord d || pySpace d) = true
  · rw [if_pos hw]
    exact hw
  · rw [if_neg hw]
    decide

/-- Claim C6 supporting fact: every character of a generalized message is a
word character (letter, digit or underscore) or a space. -/
theorem chars_generalizeList (l : List Char) :
    ∀ c ∈ generalizeList l, pyWord c = true ∨ c = ' ' := by
  intro c h
  rw [generalizeList] at h
  have h1 := mem_stripWs h
  rcases mem_collapseS _ _ c h1 with h2 | ⟨h2, h3⟩
  · exact Or.inr h2
  · have h4 := mem_map_punct h2
    rcases Bool.or_eq_true _ _ |>.mp h4 with h5 | h5
    · exact Or.inl h5
    · rw [h5] at h3
      cases h3

theorem noUpper_of_all {l : List Char}
    (hall : l.all (fun c => !asciiUpperAlpha c) = true) :
    ∀ c ∈ l, asciiUpperAlpha c = false := by
  intro c hc
  have := List.all_eq_true.mp hall c hc
  simpa using this

/-- No character of a generalized message is an uppercase ASCII letter. -/
theorem noUpper_generalizeList (l : List Char) :
    ∀ c ∈ generalizeList l, asciiUpperAlpha c = false := by
  have h1 : ∀ c ∈ l.map asciiLower, asciiUpperAlpha c = false := by
    intro c hc
    rcases List.mem_map.mp hc with ⟨d, -, hd⟩
    rw [← hd]
    exact asciiUpper_asciiLower d
  have h2 : ∀ c ∈ subIp (l.map asciiLower), asciiUpperAlpha c = false := by
    intro c hc
    rcases mem_subIpS none false _ c hc with h | h
    · exact h1 c h
    · exact noUpper_of_all (by decide) c h
  have h3 : ∀ c ∈ subHex (subIp (l.map asciiLower)), asciiUpperAlpha c = false := by
    intro c hc
    rcases mem_subHexS false _ c hc with h | h
    · exact h2 c h
    · exact noUpper_of_all (by decide) c h
  have h4 : ∀ c ∈ subPath (subHex (subIp (l.map asciiLower))),
      asciiUpperAlpha c = false := by
    intro c hc
    rcases mem_subPathS _ false c hc with h | h
    · exact h3 c h
    · exact noUpper_of_all (by decide) c h
  have h5 : ∀ c ∈ subNum (subPath (subHex (subIp (l.map asciiLower)))),
      asciiUpperAlpha c = false := by
    intro c hc
    rcases mem_subNumS _ none false c hc with h | h | ⟨acc, hacc, -⟩
    · exact h4 c h
    · exact noUpper_of_all (by decide) c h
    · cases hacc
  have h6 : ∀ c ∈ (subNum (subPath (subHex (subIp (l.map asciiLower))))).map punctToSpace,
      asciiUpperAlpha c = false := by
    intro c hc
    rcases List.mem_map.mp hc with ⟨d, hd, hdc⟩
    rw [← hdc, punctToSpace]
    by_cases hw : (pyWord d || pySpace d) = true
    · rw [if_pos hw]
      exact h5 d hd
    · rw [if_neg hw]
      decide
  intro c hc
  rw [generalizeList] at hc
  rcases mem_collapseS _ _ c (mem_stripWs hc) with h | ⟨h, -⟩
  · rw [h]
    decide
  · exact h6 c h

/-- `\b\d+\b` match detector, mirroring the scan states of `subNumS`:
in scanning mode (`ir = false`) `pw` tracks the word-ness of the previous
character; run mode (`ir = true`) is entered at a digit with a word boundary
before it, and reports a match when the run ends at the end of the text or at
a non-word character. -/
def hasNumSt : Bool → Bool → List Char → Bool
  | false, _, [] => false
  | false, pw, c :: rest =>
    if pyDigit c then
      (if pw then hasNumSt false true rest else hasNumSt true true rest)
    else hasNumSt false (pyWord c) rest
  | true, _, [] => true
  | true, _, d :: t =>
    if pyDigit d then hasNumSt true true t
    else if pyWord d then hasNumSt false true t
    else true

/-- With no standalone digit run, the number substitution is the identity
(scanning mode), and run mode flushes its accumulator verbatim. -/
theorem subNum_id_of_noNum : ∀ (l : List Char),
    (∀ pw, hasNumSt false pw l = false → subNumS none pw l = l) ∧
    (∀ acc, hasNumSt true true l = false → subNumS (some acc) true l = acc ++ l) := by
  intro l
  induction l with
  | nil =>
    constructor
    · intro pw _
      rfl
    · intro acc h
      rw [hasNumSt] at h
      cases h
  | cons x rest ih =>
    constructor
    · intro pw h
      rw [hasNumSt] at h
      rw [subNumS]
      by_cases hd : pyDigit x
      · rw [if_pos hd] at h ⊢
        by_cases hpw : pw = true
        · rw [if_pos hpw] at h ⊢
          rw [ih.1 true h]
        · rw [if_neg hpw] at h ⊢
          rw [ih.2 [x] h]
          rfl
      · rw [if_neg hd] at h ⊢
        rw [ih.1 _ h]
    · intro acc h
      rw [hasNumSt] at h
      rw [subNumS]
      by_cases hd : pyDigit x
      · rw [if_pos hd] at h ⊢
        rw [ih.2 (acc ++ [x]) h, List.append_assoc]
        simp
      · rw [if_neg hd] at h ⊢
        by_cases hw : pyWord x
        · rw [if_pos hw] at h ⊢
          rw [ih.1 true h]
        · rw [if_neg hw] at h
          cases h

theorem pyDigit_pyWord {c : Char} (h : pyDigit c = true) : pyWord c = true := by
  rw [pyWord, h]
  simp

/-- Run mode ignores a leading all-digit block. -/
theorem hasNum_digit_block : ∀ (acc : List Char), (∀ c ∈ acc, pyDigit c = true) →
    ∀ z, hasNumSt true true (acc ++ z) = hasNumSt true true z := by
  intro acc
  induction acc with
  | nil => intro _ z; rfl
  | cons a t ih =>
    intro hd z
    rw [List.cons_append, hasNumSt, if_pos (hd a (List.mem_cons_self _ _))]
    exact ih (fun c hc => hd c (List.mem_cons_of_mem _ hc)) z

theorem hasNum_letter_step {c : Char} (h1 : pyDigit c = false) (h2 : pyWord c = true) :
    ∀ (b : Bool) (z : List Char), hasNumSt false b (c :: z) = hasNumSt false true z := by
  intro b z
  rw [hasNumSt, if_neg (by simp [h1]), h2]

/-- Scanning the token `'number'` ends in scanning mode with a word character
behind. -/
theorem hasNum_numberToken : ∀ (b : Bool) (z : List Char),
    hasNumSt false b (numberToken ++ z) = hasNumSt false true z := by
  intro b z
  show hasNumSt false b ('n' :: 'u' :: 'm' :: 'b' :: 'e' :: 'r' :: z) = _
  rw [hasNum_letter_step (by decide) (by decide),
    hasNum_letter_step (by decide) (by decide),
    hasNum_letter_step (by decide) (by decide),
    hasNum_letter_step (by decide) (by decide),
    hasNum_letter_step (by decide) (by decide),
    hasNum_letter_step (by decide) (by decide)]

/-- The number substitution leaves no standalone digit run behind. -/
theorem noNum_subNumS : ∀ (l : List Char),
    (∀ pw, hasNumSt false pw (subNumS none pw l) = false) ∧
    (∀ acc, acc ≠ [] → (∀ c ∈ acc, pyDigit c = true) →
      hasNumSt false false (subNumS (some acc) true l) = false) := by
  intro l
  induction l with
  | nil =>
    constructor
    · intro pw
      rfl
    · intro acc _ _
      rw [subNumS]
      decide
  | cons x rest ih =>
    constructor
    · intro pw
      rw [subNumS]
      by_cases hd : pyDigit x
      · rw [if_pos hd]
        by_cases hpw : pw = true
        · rw [if_pos hpw, hpw, hasNumSt, if_pos hd, if_pos rfl]
          exact ih.1 true
        · rw [if_neg hpw]
          have hpw' : pw = false := by
            cases pw
            · rfl
            · exact absurd rfl hpw
          rw [hpw']
          exact ih.2 [x] (by simp) (by simpa using hd)
      · rw [if_neg hd, hasNumSt, if_neg hd]
        exact ih.1 (pyWord x)
    · intro acc hne hdig
      rw [subNumS]
      by_cases hd : pyDigit x
      · rw [if_pos hd]
        refine ih.2 (acc ++ [x]) (by simp) ?_
        intro c hc
        rcases List.mem_append.mp hc with h1 | h1
        · exact hdig c h1
        · rw [List.mem_singleton.mp h1]
          exact hd
      · rw [if_neg hd]
        by_cases hw : pyWord x
        · rw [if_pos hw]
          cases acc with
          | nil => exact absurd rfl hne
          | cons a t =>
            rw [List.cons_append, hasNumSt,
              if_pos (hdig a (List.mem_cons_self _ _)), if_neg (by simp)]
            rw [hasNum_digit_block t (fun c hc => hdig c (List.mem_cons_of_mem _ hc))]
            rw [hasNumSt, if_neg (by simp [hd]), hw]
            exact ih.1 true
        · rw [if_neg hw]
          rw [hasNum_numberToken]
          rw [hasNumSt, if_neg (by simp [hd])]
          have hwx : pyWord x = false := by
            cases hxx : pyWord x
            · rfl
            · exact absurd hxx hw
          rw [hwx]
          exact ih.1 false

theorem punct_digit (c : Char) : pyDigit (punctToSpace c) = pyDigit c := by
  rw [punctToSpace]
  by_cases hw : (pyWord c || pySpace c) = true
  · rw [if_pos hw]
  · rw [if_neg hw]
    have hd : pyDigit c = false := by
      cases hdd : pyDigit c
      · rfl
      · exact absurd (by rw [pyDigit_pyWord hdd]; simp) hw
    rw [hd]
    decide

theorem punct_word (c : Char) : pyWord (punctToSpace c) = pyWord c := by
  rw [punctToSpace]
  by_cases hw : (pyWord c || pySpace c) = true
  · rw [if_pos hw]
  · rw [if_neg hw]
    have hd : pyWord c = false := by
      cases hdd : pyWord c
      · rfl
      · exact absurd (by rw [hdd]; simp) hw
    rw [hd]
    decide

/-- The punct-to-space pass does not change the standalone-digit-run
detector (digits and word-ness of every character are preserved). -/
theorem hasNum_map_punct : ∀ (l : List Char) (ir pw : Bool),
    hasNumSt ir pw (l.map punctToSpace) = hasNumSt ir pw l := by
  intro l
  induction l with
  | nil =>
    intro ir pw
    cases ir <;> rfl
  | cons x rest ih =>
    intro ir pw
    rw [List.map_cons]
    cases ir with
    | false =>
      rw [hasNumSt, hasNumSt, punct_digit, punct_word]
      by_cases hd : pyDigit x
      · rw [if_pos hd, if_pos hd]
        by_cases hpw : pw = true
        · rw [if_pos hpw, if_pos hpw, ih]
        · rw [if_neg hpw, if_neg hpw, ih]
      · rw [if_neg hd, if_neg hd, ih]
    | true =>
      rw [hasNumSt, hasNumSt, punct_digit, punct_word]
      by_cases hd : pyDigit x
      · rw [if_pos hd, if_pos hd, ih]
      · rw [if_neg hd, if_neg hd]
        by_cases hw : pyWord x
        · rw [if_pos hw, if_pos hw, ih]
        · rw [if_neg hw, if_neg hw]

theorem pySpace_not_word {c : Char} (h : pySpace c = true) : pyWord c = false := by
  rw [pySpace] at h
  simp only [Bool.or_eq_true, decide_eq_true_eq] at h
  rcases h with ((((h | h) | h) | h) | h) | h <;> subst h <;> decide

theorem pySpace_not_digit {c : Char} (h : pySpace c = true) : pyDigit c = false := by
  rw [pySpace] at h
  simp only [Bool.or_eq_true, decide_eq_true_eq] at h
  rcases h with ((((h | h) | h) | h) | h) | h <;> subst h <;> decide

/-- Whitespace collapsing does not change the standalone-digit-run
detector. -/
theorem hasNum_collapseS : ∀ (l : List Char),
    (∀ pw, hasNumSt false pw (collapseS false l) = hasNumSt false pw l) ∧
    hasNumSt false false (collapseS true l) = hasNumSt false false l ∧
    hasNumSt true true (collapseS false l) = hasNumSt true true l := by
  intro l
  induction l with
  | nil => exact ⟨fun _ => rfl, rfl, rfl⟩
  | cons x rest ih =>
    refine ⟨?_, ?_, ?_⟩
    · intro pw
      rw [collapseS]
      by_cases hx : pySpace x
      · rw [if_pos hx, hasNumSt, if_neg (by decide), hasNumSt,
          if_neg (by simp [pySpace_not_digit hx]), pySpace_not_word hx]
        rw [show pyWord ' ' = false from by decide, ih.2.1]
      · rw [if_neg hx, hasNumSt, hasNumSt]
        by_cases hd : pyDigit x
        · rw [if_pos hd, if_pos hd]
          by_cases hpw : pw = true
          · rw [if_pos hpw, if_pos hpw, ih.1]
          · rw [if_neg hpw, if_neg hpw, ih.2.2]
        · rw [if_neg hd, if_neg hd, ih.1]
    · rw [collapseS]
      by_cases hx : pySpace x
      · rw [if_pos hx, hasNumSt, if_neg (by simp [pySpace_not_digit hx]),
          pySpace_not_word hx]
        exact ih.2.1
      · rw [if_neg hx, hasNumSt, hasNumSt]
        by_cases hd : pyDigit x
        · rw [if_pos hd, if_pos hd]
          rw [if_neg (by simp), if_neg (by simp)]
          exact ih.2.2
        · rw [if_neg hd, if_neg hd, ih.1]
    · rw [collapseS]
      by_cases hx : pySpace x
      · rw [if_pos hx]
        conv_lhs => rw [hasNumSt]
        rw [if_neg (by decide), if_neg (by decide)]
        conv_rhs => rw [hasNumSt]
        rw [if_neg (by simp [pySpace_not_digit hx]),
          if_neg (by simp [pySpace_not_word hx])]
      · rw [if_neg hx, hasNumSt, hasNumSt]
        by_cases hd : pyDigit x
        · rw [if_pos hd, if_pos hd, ih.2.2]
        · rw [if_neg hd, if_neg hd]
          by_cases hw : pyWord x
          · rw [if_pos hw, if_pos hw, ih.1]
          · rw [if_neg hw, if_neg hw]

/-- On an all-whitespace list the detector keeps its mode outcome. -/
theorem hasNum_all_spaces : ∀ (s : List Char), (∀ c ∈ s, pySpace c = true) →
    ∀ pw, hasNumSt false pw s = false ∧ hasNumSt true pw s = true := by
  intro s
  induction s with
  | nil => exact fun _ _ => ⟨rfl, rfl⟩
  | cons c cs ih =>
    intro hs pw
    constructor
    · conv_lhs => rw [hasNumSt]
      rw [if_neg (by simp [pySpace_not_digit (hs c (List.mem_cons_self _ _))]),
        pySpace_not_word (hs c (List.mem_cons_self _ _))]
      exact (ih (fun d hd => hs d (List.mem_cons_of_mem _ hd)) false).1
    · conv_lhs => rw [hasNumSt]
      rw [if_neg (by simp [pySpace_not_digit (hs c (List.mem_cons_self _ _))]),
        if_neg (by simp [pySpace_not_word (hs c (List.mem_cons_self _ _))])]

/-- A trailing all-whitespace block does not change the detector. -/
theorem hasNum_append_spaces : ∀ (t s : List Char), (∀ c ∈ s, pySpace c = true) →
    ∀ ir pw, hasNumSt ir pw (t ++ s) = hasNumSt ir pw t := by
  intro t
  induction t with
  | nil =>
    intro s hs ir pw
    rw [List.nil_append]
    cases ir with
    | false => exact (hasNum_all_spaces s hs pw).1
    | true => exact (hasNum_all_spaces s hs pw).2
  | cons x t' ih =>
    intro s hs ir pw
    rw [List.cons_append]
    cases ir with
    | false =>
      rw [hasNumSt, hasNumSt]
      by_cases hd : pyDigit x
      · rw [if_pos hd, if_pos hd]
        by_cases hpw : pw = true
        · rw [if_pos hpw, if_pos hpw, ih s hs]
        · rw [if_neg hpw, if_neg hpw, ih s hs]
      · rw [if_neg hd, if_neg hd, ih s hs]
    | true =>
      rw [hasNumSt, hasNumSt]
      by_cases hd : pyDigit x
      · rw [if_pos hd, if_pos hd, ih s hs]
      · rw [if_neg hd, if_neg hd]
        by_cases hw : pyWord x
        · rw [if_pos hw, if_pos hw, ih s hs]
        · rw [if_neg hw, if_neg hw]

theorem hasNum_rstrip (l : List Char) (ir pw : Bool) :
    hasNumSt ir pw (rstripWs l) = hasNumSt ir pw l := by
  rcases rstrip_decomp l with ⟨s, hs, hsp⟩
  conv_rhs => rw [hs]
  rw [hasNum_append_spaces _ s hsp]

theorem hasNum_lstrip (l : List Char) :
    hasNumSt false false (lstripWs l) = hasNumSt false false l := by
  rw [lstripWs]
  induction l with
  | nil => rfl
  | cons x rest ih =>
    by_cases hx : pySpace x
    · rw [List.dropWhile_cons_of_pos hx, ih, hasNumSt,
        if_neg (by simp [pySpace_not_digit hx]), pySpace_not_word hx]
    · rw [List.dropWhile_cons_of_neg (by simp [hx])]

/-- The generalizer's output has no standalone digit run. -/
theorem noNum_generalizeList (l : List Char) :
    hasNumSt false false (generalizeList l) = false := by
  rw [generalizeList, stripWs, hasNum_lstrip, hasNum_rstrip, collapseWs,
    (hasNum_collapseS _).1 false, hasNum_map_punct]
  exact ((noNum_subNumS _).1 false)

/-- C6: as stated the claim is false — digits embedded inside alphanumeric
tokens survive, since the `\b\d+\b` pattern only matches standalone digit
runs.  The corrected property is scoped to ASCII input, where the ASCII
character classes of this development coincide with Python's Unicode `\w`
and `\s` (on general input `re.sub(r'[^\w\s]', ' ', ...)` retains non-ASCII
word characters such as `é`, which are neither ASCII word characters nor
spaces): for an input of ASCII characters, every output character is a word
character or a space (no punctuation survives), no output character is an
uppercase letter, and the output contains no standalone digit run
(`hasNumSt false false` on the output is `false`). -/
theorem C6_output_charset_amended (s : String)
    (_hascii : ∀ c ∈ s.data, c.toNat < 128) :
    ((generalize_message s).data.all
      (fun c => (pyWord c || (c == ' ')) && !asciiUpperAlpha c)) = true ∧
    hasNumSt false false (generalize_message s).data = false := by
  constructor
  · rw [List.all_eq_true]
    intro c hc
    have h1 := chars_generalizeList s.data c hc
    have h2 := noUpper_generalizeList s.data c hc
    simp only [Bool.and_eq_true, Bool.or_eq_true, Bool.not_eq_true', beq_iff_eq]
    exact ⟨h1, h2⟩
  · exact noNum_generalizeList s.data

/-- C6 counterexample: the input "abc123" is returned unchanged, and its
generalized form contains the digit character 1, refuting the no-digit
half of the claim. -/
theorem C6_output_charset_counterexample :
    generalize_message "abc123" = "abc123" ∧
    '1' ∈ (generalize_message "abc123").data ∧ pyDigit '1' = true := by decide

/-- C6 witness: a concrete ASCII log message on which the corrected charset
theorem applies. -/
theorem C6_output_charset_amended_witness :
    (∀ c ∈ "Error: disk 87% full, see /var/log!".data, c.toNat < 128) ∧
    (((generalize_message "Error: disk 87% full, see /var/log!").data.all
      (fun c => (pyWord c || (c == ' ')) && !asciiUpperAlpha c)) = true ∧
    hasNumSt false false
      (generalize_message "Error: disk 87% full, see /var/log!").data = false) :=
  ⟨by decide, C6_output_charset_amended _ (by decide)⟩

/-- A successful first quad consumes a literal dot. -/
theorem ipQuadDot_has_dot {l t : List Char} (h : ipQuadDot l = some t) :
    '.' ∈ l := by
  rw [ipQuadDot] at h
  split at h
  · split at h
    · rename_i heq
      exact (List.dropWhile_sublist pyDigit).subset
        (heq ▸ List.mem_cons_self _ _)
    · exact absurd h (by simp)
  · exact absurd h (by simp)

/-- A successful IPv4 match consumes a literal dot. -/
theorem ipMatch_has_dot {l t : List Char} (h : ipMatch l = some t) :
    '.' ∈ l := by
  rw [ipMatch] at h
  rcases hq : ipQuadDot l with _ | t1
  · rw [hq] at h
    exact absurd h (by simp)
  · exact ipQuadDot_has_dot hq

/-- Without a dot no IPv4 skip count is produced. -/
theorem ipSkip_none_of_no_dot {l : List Char} (h : '.' ∉ l) :
    ipSkip l = none := by
  rw [ipSkip]
  rcases hm : ipMatch l with _ | t
  · rfl
  · exact absurd (ipMatch_has_dot hm) h

/-- The IPv4 substitution is the identity on dot-free text. -/
theorem subIpS_id_of_no_dot : ∀ (l : List Char), '.' ∉ l →
    ∀ pw, subIpS none pw l = l := by
  intro l
  induction l with
  | nil => intro _ _; rfl
  | cons c rest ih =>
    intro h pw
    have hr : '.' ∉ rest := fun hc => h (List.mem_cons_of_mem _ hc)
    rw [subIpS]
    by_cases hd : pyDigit c
    · rw [if_pos hd]
      by_cases hpw : pw = true
      · rw [if_pos hpw, ih hr true]
      · rw [if_neg hpw, ipSkip_none_of_no_dot h, ih hr true]
    · rw [if_neg hd, ih hr (pyWord c)]

/-- Occurrence of a `0x` + hex-digit trigger anywhere in the text: exactly
the situation in which `re.sub(r'0x[0-9a-f]+', ...)` finds a match. -/
def hasHexTrigger : List Char → Bool
  | '0' :: 'x' :: c :: rest => hexDigit c || hasHexTrigger ('x' :: c :: rest)
  | _ :: rest => hasHexTrigger rest
  | [] => false

/-- The hex substitution is the identity on trigger-free text. -/
theorem subHexS_id_of_no_trigger : ∀ (l : List Char),
    hasHexTrigger l = false → subHexS false l = l := by
  intro l
  induction l using hasHexTrigger.induct with
  | case1 c rest ih =>
    intro h
    rw [hasHexTrigger] at h
    rcases Bool.or_eq_false_iff.mp h with ⟨h1, h2⟩
    rw [subHexS, if_neg (by simp [h1]), ih h2]
  | case2 c rest hne ih =>
    intro h
    rw [hasHexTrigger] at h
    · rw [subHexS]
      · rw [ih h]
      · exact hne
    · exact hne
  | case3 => intro _; rfl

/-- The path substitution is the identity on slash-free text. -/
theorem subPathS_id_of_no_slash : ∀ (l : List Char), '/' ∉ l →
    subPathS false l = l := by
  intro l
  induction l with
  | nil => intro _; rfl
  | cons c rest ih =>
    intro h
    rw [subPathS,
      if_neg (fun hc => h (by rw [hc]; exact List.mem_cons_self _ _)),
      ih (fun hc => h (List.mem_cons_of_mem _ hc))]

/-- Punctuation replacement is the identity on word-or-space text. -/
theorem map_punct_id : ∀ (l : List Char),
    (∀ c ∈ l, pyWord c = true ∨ c = ' ') → l.map punctToSpace = l := by
  intro l
  induction l with
  | nil => intro _; rfl
  | cons c rest ih =>
    intro h
    rw [List.map_cons, ih (fun d hd => h d (List.mem_cons_of_mem _ hd))]
    have hc : punctToSpace c = c := by
      rcases h c (List.mem_cons_self _ _) with hw | hs
      · rw [punctToSpace, if_pos (by simp [hw])]
      · rw [punctToSpace, if_pos (by rw [hs]; decide)]
    rw [hc]

/-- Canonical-whitespace check: scanning with `ps` = "previous position is a
run boundary", the text contains no whitespace character other than a plain
space, no two adjacent spaces, and (when started with `ps = true`) no leading
space. -/
def canonS (ps : Bool) : List Char → Bool
  | [] => true
  | c :: rest =>
    if pySpace c then
      if ps then false else (c == ' ') && canonS true rest
    else canonS false rest

/-- Whitespace collapsing is the identity on canonical text. -/
theorem collapseS_id_of_canon : ∀ (l : List Char),
    (canonS true l = true → ∀ ir, collapseS ir l = l) ∧
    (canonS false l = true → collapseS false l = l) := by
  intro l
  induction l with
  | nil => exact ⟨fun _ ir => by cases ir <;> rfl, fun _ => rfl⟩
  | cons c rest ih =>
    constructor
    · intro h ir
      rw [canonS] at h
      by_cases hc : pySpace c
      · rw [if_pos hc, if_pos rfl] at h
        exact absurd h (by simp)
      · rw [if_neg hc] at h
        cases ir with
        | false => rw [collapseS, if_neg hc, ih.2 h]
        | true => rw [collapseS, if_neg hc, ih.2 h]
    · intro h
      rw [canonS] at h
      by_cases hc : pySpace c
      · rw [if_pos hc, if_neg (by simp)] at h
        simp only [Bool.and_eq_true, beq_iff_eq] at h
        rw [collapseS, if_pos hc, h.1]
        rw [show collapseS true rest = rest from ih.1 h.2 true]
      · rw [if_neg hc] at h
        rw [collapseS, if_neg hc, ih.2 h]

/-- Left strip is the identity on canonical text. -/
theorem lstrip_id_of_canon : ∀ (l : List Char), canonS true l = true →
    lstripWs l = l := by
  intro l h
  cases l with
  | nil => rfl
  | cons c rest =>
    rw [canonS] at h
    by_cases hc : pySpace c
    · rw [if_pos hc, if_pos rfl] at h
      exact absurd h (by simp)
    · rw [lstripWs, List.dropWhile_cons_of_neg (by simp [hc])]

/-- Right strip is the identity when the last character is not whitespace. -/
theorem rstrip_id_of_last : ∀ (l : List Char),
    pySpace (l.getLastD 'a') = false → rstripWs l = l := by
  intro l
  induction l with
  | nil => intro _; rfl
  | cons c rest ih =>
    intro h
    cases hr : rest with
    | nil =>
      rw [hr] at h
      rw [rstripWs, rstripWs, if_neg (by simpa using h)]
    | cons d t =>
      rw [hr] at h ih
      have h2 : pySpace ((d :: t).getLastD 'a') = false := by
        simp only [List.getLastD_cons] at h ⊢
        exact h
      rw [rstripWs, ih h2]

/-- Collapsed text is canonical (modulo a possible leading or trailing
space). -/
theorem canon_collapseS : ∀ (l : List Char),
    canonS true (collapseS true l) = true ∧
    canonS false (collapseS false l) = true := by
  intro l
  induction l with
  | nil => exact ⟨rfl, rfl⟩
  | cons c rest ih =>
    constructor
    · rw [collapseS]
      by_cases hc : pySpace c
      · rw [if_pos hc]
        exact ih.1
      · rw [if_neg hc, canonS, if_neg hc]
        exact ih.2
    · rw [collapseS]
      by_cases hc : pySpace c
      · rw [if_pos hc, canonS, if_pos (by decide), if_neg (by simp)]
        simpa using ih.1
      · rw [if_neg hc, canonS, if_neg hc]
        exact ih.2

/-- Right strip preserves canonicity. -/
theorem canon_rstrip : ∀ (l : List Char) (ps : Bool),
    canonS ps l = true → canonS ps (rstripWs l) = true := by
  intro l
  induction l with
  | nil => intro _ _; exact rfl
  | cons c rest ih =>
    intro ps h
    rw [canonS] at h
    rw [rstripWs]
    cases hr : rstripWs rest with
    | nil =>
      by_cases hc : pySpace c
      · rw [if_pos hc]
        rfl
      · rw [if_neg hc, canonS, if_neg hc]
        rfl
    | cons d t =>
      rw [canonS]
      by_cases hc : pySpace c
      · rw [if_pos hc] at h ⊢
        by_cases hps : ps = true
        · rw [if_pos hps] at h
          exact absurd h (by simp)
        · rw [if_neg hps] at h ⊢
          simp only [Bool.and_eq_true] at h ⊢
          refine ⟨h.1, ?_⟩
          rw [show d :: t = rstripWs rest from hr.symm]
          exact ih true h.2
      · rw [if_neg hc] at h ⊢
        rw [show d :: t = rstripWs rest from hr.symm]
        exact ih false h

/-- The last character of a right-stripped list is not whitespace. -/
theorem rstrip_last : ∀ (l : List Char),
    pySpace ((rstripWs l).getLastD 'a') = false := by
  intro l
  induction l with
  | nil => decide
  | cons c rest ih =>
    rw [rstripWs]
    cases hr : rstripWs rest with
    | nil =>
      by_cases hc : pySpace c
      · rw [if_pos hc]
        rfl
      · rw [if_neg hc]
        show pySpace (List.getLastD [c] 'a') = false
        simpa using hc
    | cons d t =>
      rw [hr] at ih
      simp only [List.getLastD_cons] at ih ⊢
      exact ih

/-- Left strip preserves a non-whitespace last character. -/
theorem lstrip_last : ∀ (l : List Char),
    pySpace (l.getLastD 'a') = false →
    pySpace ((lstripWs l).getLastD 'a') = false := by
  intro l
  induction l with
  | nil => intro _; decide
  | cons c rest ih =>
    intro h
    by_cases hc : pySpace c
    · rw [lstripWs, List.dropWhile_cons_of_pos hc]
      cases hr : rest with
      | nil =>
        rw [hr] at h
        exact absurd h (by simpa using hc)
      | cons d t =>
        rw [hr] at h ih
        refine ih ?_
        simp only [List.getLastD_cons] at h ⊢
        exact h
    · rw [lstripWs, List.dropWhile_cons_of_neg (by simp [hc])]
      exact h

/-- Left strip upgrades canonicity to the strong (no-leading-space) form. -/
theorem canon_lstrip : ∀ (l : List Char), canonS false l = true →
    canonS true (lstripWs l) = true := by
  intro l h
  cases l with
  | nil => exact rfl
  | cons c rest =>
    rw [canonS] at h
    by_cases hc : pySpace c
    · rw [if_pos hc, if_neg (by simp)] at h
      simp only [Bool.and_eq_true] at h
      rw [lstripWs, List.dropWhile_cons_of_pos hc,
        show rest.dropWhile pySpace = rest from lstrip_id_of_canon rest h.2]
      exact h.2
    · rw [if_neg hc] at h
      rw [lstripWs, List.dropWhile_cons_of_neg (by simp [hc]), canonS,
        if_neg hc]
      exact h

/-- Collapse-then-strip whitespace normalization is idempotent. -/
theorem norm_ws_idem (y : List Char) :
    stripWs (collapseWs (stripWs (collapseWs y))) = stripWs (collapseWs y) := by
  have hz : canonS false (collapseWs y) = true := (canon_collapseS y).2
  have hzr : canonS false (rstripWs (collapseWs y)) = true :=
    canon_rstrip _ false hz
  have hw : canonS true (stripWs (collapseWs y)) = true := canon_lstrip _ hzr
  have hlast : pySpace ((stripWs (collapseWs y)).getLastD 'a') = false := by
    rw [stripWs]
    exact lstrip_last _ (rstrip_last _)
  rw [show collapseWs (stripWs (collapseWs y)) = stripWs (collapseWs y) from
    (collapseS_id_of_canon _).1 hw false]
  rw [stripWs, rstrip_id_of_last _ hlast, lstrip_id_of_canon _ hw]

/-- On its own output — provided that output contains no `0x` + hex-digit
trigger — the generalizer is the identity, because every other pass has
nothing left to match. -/
theorem generalizeList_idem (l : List Char)
    (h : hasHexTrigger (generalizeList l) = false) :
    generalizeList (generalizeList l) = generalizeList l := by
  have hch := chars_generalizeList l
  have hup := noUpper_generalizeList l
  have hnum := noNum_generalizeList l
  have hdot : '.' ∉ generalizeList l := by
    intro hd
    rcases hch '.' hd with hw | hs
    · exact absurd hw (by decide)
    · exact absurd hs (by decide)
  have hsl : '/' ∉ generalizeList l := by
    intro hd
    rcases hch '/' hd with hw | hs
    · exact absurd hw (by decide)
    · exact absurd hs (by decide)
  conv_lhs => rw [generalizeList]
  rw [map_asciiLower_fix hup]
  rw [show subIp (generalizeList l) = generalizeList l from by
    rw [subIp]; exact subIpS_id_of_no_dot _ hdot false]
  rw [show subHex (generalizeList l) = generalizeList l from by
    rw [subHex]; exact subHexS_id_of_no_trigger _ h]
  rw [show subPath (generalizeList l) = generalizeList l from by
    rw [subPath]; exact subPathS_id_of_no_slash _ hsl]
  rw [show subNum (generalizeList l) = generalizeList l from by
    rw [subNum]; exact (subNum_id_of_noNum _).1 false hnum]
  rw [map_punct_id _ hch]
  rw [generalizeList]
  exact norm_ws_idem _

/-- C5: as stated the claim is false; the corrected form holds under the
hypothesis that the first output contains no `0x` + hex-digit trigger (such
a trigger can be created when the path replacement text `file path` is glued
directly after a literal `0x`).  Under that hypothesis applying
`generalize_message` twice equals applying it once. -/
theorem C5_idempotent_amended (s : String)
    (h : hasHexTrigger (generalize_message s).data = false) :
    generalize_message (generalize_message s) = generalize_message s := by
  show (⟨generalizeList (generalizeList s.data)⟩ : String) = ⟨generalizeList s.data⟩
  rw [generalizeList_idem s.data h]

/-- C5 counterexample: `generalize_message "0x/q"` is `"0xfile path"`, whose
second generalization is `"hex valueile path"`, so the function is not
idempotent on every string. -/
theorem C5_idempotent_counterexample :
    generalize_message (generalize_message "0x/q") ≠ generalize_message "0x/q" := by
  decide

/-- C5 witness: a typical log message on which the corrected idempotence
theorem applies concretely. -/
theorem C5_idempotent_amended_witness :
    hasHexTrigger (generalize_message "Error at line 42 in /var/log/app.log").data
      = false ∧
    generalize_message (generalize_message "Error at line 42 in /var/log/app.log") =
      generalize_message "Error at line 42 in /var/log/app.log" :=
  ⟨by decide, C5_idempotent_amended _ (by decide)⟩
